import Mathlib

/-!
# AllDebrid API client (store/alldebrid/client.go)

A shallow embedding of the request-building and request-executing code of
`store/alldebrid/client.go`, together with models of the parts of the Go
standard library it calls (`strings`, `path`, `net/url`, `net/http`,
`net/textproto`; Go 1.22 semantics).

Conventions of the embedding:

* a Go `string` is a finite sequence of bytes, `GoString = List (Fin 256)`;
  string literals of the program are written `lit "..."` (their UTF-8 bytes);
* a Go `map[string][]string` (`url.Values`, `http.Header`) is an association
  list with pairwise distinct keys; the order of its entries stands for one
  enumeration order of the map (Go leaves that order unspecified);
* a nilable pointer or interface is an `Option`;
* a function that returns `(x, err)` with exactly one of the two set is an
  `Except`; a function that may return both is a pair of options;
* a value mutated through a pointer is returned as an extra result.
-/

set_option autoImplicit false

/-! ## Bytes and strings -/

/-- One byte. -/
abbrev Byte := Fin 256

/-- A Go string: a sequence of bytes. -/
abbrev GoString := List Byte

/-- The bytes (UTF-8) of a string literal. -/
def lit (s : String) : GoString :=
  s.data.flatMap (fun c => (String.utf8EncodeChar c).map (fun b => Fin.ofNat b.toNat))

/-- The byte of an ASCII character literal. -/
def ch (c : Char) : Byte := Fin.ofNat c.toNat

/-- Byte-wise lexicographic order on strings (Go's `<=` on strings). -/
def GoString.le : GoString → GoString → Bool
  | [], _ => true
  | _ :: _, [] => false
  | a :: s, b :: t => if a < b then true else if b < a then false else GoString.le s t

deriving instance DecidableEq for Except

/-- Go `error` values that occur in this program. -/
inductive GoError where
  /-- An error made by `errors.New`: its text. -/
  | errorString (s : GoString)
  /-- An error made by `fmt.Errorf`: the format and its string arguments. -/
  | errorf (format : GoString) (args : List GoString)
  /-- Type `url.EscapeError`. -/
  | EscapeError (s : GoString)
  /-- Type `url.InvalidHostError`. -/
  | InvalidHostError (s : GoString)
  /-- Type `*url.Error`: operation, URL and the underlying error. -/
  | Error (Op URL : GoString) (Err : GoError)
deriving DecidableEq, Repr

namespace strings

/-- Go `strings.HasPrefix`. -/
def HasPrefix (s pre : GoString) : Bool := pre.isPrefixOf s

/-- Go `strings.HasSuffix`. -/
def HasSuffix (s suf : GoString) : Bool := suf.isSuffixOf s

/-- Go `strings.Cut`: split around the first instance of `sep`. -/
def Cut (s sep : GoString) : GoString × GoString × Bool :=
  if sep.isPrefixOf s then ([], s.drop sep.length, true)
  else match s with
    | [] => ([], [], false)
    | c :: t =>
      let r := Cut t sep
      (c :: r.1, r.2.1, r.2.2)

/-- Go `strings.Index`, with `none` for `-1`. -/
def Index (s sep : GoString) : Option Nat :=
  let r := Cut s sep
  if r.2.2 then some r.1.length else none

/-- Go `strings.LastIndex`, with `none` for `-1`. -/
def LastIndex (s sep : GoString) : Option Nat :=
  match s with
  | [] => if sep.isEmpty then some 0 else none
  | c :: t =>
    match LastIndex t sep with
    | some j => some (j + 1)
    | none => if sep.isPrefixOf (c :: t) then some 0 else none

/-- Go `strings.Contains`. -/
def Contains (s sub : GoString) : Bool := (Index s sub).isSome

/-- Go `strings.Count` for a one-byte separator (the only use here). -/
def Count (s : GoString) (sep : Byte) : Nat := s.count sep

/-- Go `strings.TrimSuffix`. -/
def TrimSuffix (s suf : GoString) : GoString :=
  if HasSuffix s suf then s.take (s.length - suf.length) else s

/-- ASCII lower-casing of one byte. -/
def toLowerByte (c : Byte) : Byte :=
  if ch 'A' ≤ c ∧ c ≤ ch 'Z' then c + 32 else c

/-- Go `strings.ToLower` on ASCII input (it is applied to URL schemes only,
which consist of ASCII letters, digits, `+`, `-` and `.`). -/
def ToLower (s : GoString) : GoString := s.map toLowerByte

end strings

/-! ## net/url: escaping -/

namespace url

/-- How a string is escaped depends on the part of the URL it is in. -/
inductive encoding where
  | encodePath
  | encodePathSegment
  | encodeHost
  | encodeZone
  | encodeUserPassword
  | encodeQueryComponent
  | encodeFragment
deriving DecidableEq, Repr

open encoding

/-- The hexadecimal digits used by `escape`. -/
def upperhex : GoString := lit "0123456789ABCDEF"

/-- Go `ishex`. -/
def ishex (c : Byte) : Bool :=
  (ch '0' ≤ c && c ≤ ch '9') || (ch 'a' ≤ c && c ≤ ch 'f') || (ch 'A' ≤ c && c ≤ ch 'F')

/-- Go `unhex`. -/
def unhex (c : Byte) : Byte :=
  if ch '0' ≤ c ∧ c ≤ ch '9' then c - ch '0'
  else if ch 'a' ≤ c ∧ c ≤ ch 'f' then c - ch 'a' + 10
  else if ch 'A' ≤ c ∧ c ≤ ch 'F' then c - ch 'A' + 10
  else 0

/-- Go `shouldEscape`: whether byte `c` must be escaped in the given part. -/
def shouldEscape (c : Byte) (mode : encoding) : Bool :=
  if (ch 'a' ≤ c && c ≤ ch 'z') || (ch 'A' ≤ c && c ≤ ch 'Z') || (ch '0' ≤ c && c ≤ ch '9') then
    false
  else if (mode = encodeHost || mode = encodeZone) &&
      (lit "!$&\x27()*+,;=:[]<>\"").contains c then
    false
  else if (lit "-_.~").contains c then
    false
  else if (lit "$&+,/:;=?@").contains c then
    match mode with
    | encodePath => c == ch '?'
    | encodePathSegment => c == ch '/' || c == ch ';' || c == ch ',' || c == ch '?'
    | encodeUserPassword => c == ch '@' || c == ch '/' || c == ch '?' || c == ch ':'
    | encodeQueryComponent => true
    | encodeFragment => false
    -- no case of the inner switch applies: control reaches the final return
    | _ => true
  else if mode = encodeFragment && (lit "!()*").contains c then
    false
  else
    true

/-- Go `escape`: bytes that need it become `%XX` (a space becomes `+` in a
query component). -/
def escape (s : GoString) (mode : encoding) : GoString :=
  match s with
  | [] => []
  | c :: t =>
    if c = ch ' ' ∧ mode = encodeQueryComponent then
      ch '+' :: escape t mode
    else if shouldEscape c mode then
      ch '%' :: upperhex.getD (c.val / 16) 0 :: upperhex.getD (c.val % 16) 0 :: escape t mode
    else
      c :: escape t mode

/-- Go `QueryEscape`. -/
def QueryEscape (s : GoString) : GoString := escape s encodeQueryComponent

/-- The first pass of Go `unescape`: check that every `%` starts a
well-formed escape that is allowed in this part, and that a host has no
byte that would need escaping. The error is the offending text. -/
def unescapeCheck (s : GoString) (mode : encoding) : Except GoError Unit :=
  match s with
  | [] => .ok ()
  | c :: t =>
    if c = ch '%' then
      match t with
      | a :: b :: rest =>
        if !ishex a || !ishex b then
          .error (.EscapeError ((c :: t).take 3))
        else if mode = encodeHost ∧ unhex a < 8 ∧ [c, a, b] ≠ lit "%25" then
          .error (.EscapeError [c, a, b])
        else if mode = encodeZone ∧ [c, a, b] ≠ lit "%25" ∧
            unhex a * 16 + unhex b ≠ ch ' ' ∧ shouldEscape (unhex a * 16 + unhex b) encodeHost then
          .error (.EscapeError [c, a, b])
        else
          unescapeCheck rest mode
      | _ => .error (.EscapeError ((c :: t).take 3))
    else if c = ch '+' then
      unescapeCheck t mode
    else if (mode = encodeHost ∨ mode = encodeZone) ∧ c < 128 ∧ shouldEscape c encodeHost then
      .error (.InvalidHostError [c])
    else
      unescapeCheck t mode

/-- The second pass of Go `unescape`: replace `%XX` by the byte it stands
for (and `+` by a space in a query component). -/
def unescapeBuild (s : GoString) (mode : encoding) : GoString :=
  match s with
  | [] => []
  | c :: t =>
    if c = ch '%' then
      match t with
      | a :: b :: rest => (unhex a * 16 + unhex b) :: unescapeBuild rest mode
      | _ => []
    else if c = ch '+' then
      (if mode = encodeQueryComponent then ch ' ' else ch '+') :: unescapeBuild t mode
    else
      c :: unescapeBuild t mode

/-- Go `unescape`. -/
def unescape (s : GoString) (mode : encoding) : Except GoError GoString :=
  match unescapeCheck s mode with
  | .error e => .error e
  | .ok () => .ok (unescapeBuild s mode)

/-- Go `QueryUnescape`. -/
def QueryUnescape (s : GoString) : Except GoError GoString := unescape s encodeQueryComponent

/-- Go `validEncoded`. -/
def validEncoded (s : GoString) (mode : encoding) : Bool :=
  s.all (fun c =>
    if (lit "!$&\x27()*+,;=:@").contains c then true
    else if (lit "[]").contains c then true
    else if c = ch '%' then true
    else !shouldEscape c mode)

/-! ## net/url: Values -/

/-- Go `url.Values`, a `map[string][]string`: an association list with
distinct keys. A nil map reads like the empty one. -/
abbrev Values := AList (fun _ : GoString => List GoString)

/-- Two maps are equal when their entries are; decided on the entries. -/
instance : DecidableEq Values :=
  fun a b => decidable_of_iff (a.entries = b.entries) AList.ext_iff.symm

namespace Values

/-- The map read `v[key]`: the values under `key`, nil when absent. -/
def index (v : Values) (key : GoString) : List GoString := (v.lookup key).getD []

/-- Go `Values.Get`: the first value under `key`, or the empty string. -/
def Get (v : Values) (key : GoString) : GoString := (v.index key).headD []

/-- Go `Values.Has`. -/
def Has (v : Values) (key : GoString) : Bool := (v.lookup key).isSome

/-- Go `Values.Set`: `v[key] = []string{value}`. -/
def Set (v : Values) (key value : GoString) : Values := v.insert key [value]

/-- Go `Values.Add`: `v[key] = append(v[key], value)`. -/
def Add (v : Values) (key value : GoString) : Values := v.insert key (v.index key ++ [value])

/-- The keys in increasing order (`slices.Sort(keys)` in `Encode`). -/
def sortedKeys (v : Values) : List GoString :=
  v.keys.insertionSort (fun a b => GoString.le a b = true)

/-- One step of the inner loop of `Encode`: write `key=value` to the
buffer, after a `&` unless the buffer is empty. -/
def encodePair (keyEscaped : GoString) (buf : GoString) (value : GoString) : GoString :=
  (if buf.length > 0 then buf ++ [ch '&'] else buf) ++ keyEscaped ++ [ch '='] ++ QueryEscape value

/-- Go `Values.Encode`: the values in URL-encoded form
(`bar=baz&foo=quux`), sorted by key. -/
def Encode (v : Values) : GoString :=
  v.sortedKeys.foldl (fun buf k => (v.index k).foldl (encodePair (QueryEscape k)) buf) []

end Values

/-- The key/value pairs of `v` in the order in which `Encode` writes them:
by increasing key, the values of one key in their stored order. -/
def Values.pairs (v : Values) : List (GoString × GoString) :=
  v.sortedKeys.flatMap (fun k => (v.index k).map (fun x => (k, x)))

/-- The text `key=value` of one pair, both escaped. -/
def pairText (p : GoString × GoString) : GoString :=
  QueryEscape p.1 ++ ch '=' :: QueryEscape p.2

/-- The body of the loop of Go `parseQuery` for one `&`-separated piece. -/
def parseQueryPiece (acc : Values × Option GoError) (key : GoString) : Values × Option GoError :=
  if strings.Contains key (lit ";") then
    (acc.1, some (.errorString (lit "invalid semicolon separator in query")))
  else if key = [] then
    acc
  else
    let kv := strings.Cut key (lit "=")
    match QueryUnescape kv.1 with
    | .error err1 => (acc.1, if acc.2 = none then some err1 else acc.2)
    | .ok k =>
      match QueryUnescape kv.2.1 with
      | .error err1 => (acc.1, if acc.2 = none then some err1 else acc.2)
      | .ok value => (acc.1.Add k value, acc.2)

/-- Go `ParseQuery`: the loop cuts the query at each `&` in turn, so it
visits the pieces between the `&`s from left to right (an empty piece is
skipped). It returns the values found before and after any bad piece,
together with the error describing a bad piece. -/
def ParseQuery (query : GoString) : Values × Option GoError :=
  (query.splitOn (ch '&')).foldl parseQueryPiece (∅, none)

end url

/-! ## path -/

namespace path

/-- The backtracking of Go `path.Clean` at a `..` element: drop the last
byte, then go on dropping while more than `dotdot` bytes are left and the
byte just dropped is not a slash. `rev` is the buffer read backwards and `w`
the number of bytes kept. -/
def backtrack (dotdot : Nat) : (rev : GoString) → (w : Nat) → Nat
  | [], w => w
  | c :: t, w => if w > dotdot ∧ c ≠ ch '/' then backtrack dotdot t (w - 1) else w

/-- The loop body of Go `path.Clean` for one `/`-separated path element:
`st` is the output buffer and the index `dotdot` where `..` must stop. -/
def cleanStep (rooted : Bool) (st : GoString × Nat) (elem : GoString) : GoString × Nat :=
  if elem = [] then st
  else if elem = lit "." then st
  else if elem = lit ".." then
    if st.1.length > st.2 then
      (st.1.take (backtrack st.2 st.1.reverse (st.1.length - 1)), st.2)
    else if !rooted then
      let out := (if st.1.length > 0 then st.1 ++ lit "/" else st.1) ++ lit ".."
      (out, out.length)
    else st
  else
    let out := if (rooted && st.1.length != 1) || (!rooted && st.1.length != 0)
      then st.1 ++ lit "/" else st.1
    (out ++ elem, st.2)

/-- Go `path.Clean`: the shortest path name equivalent to `path` by purely
lexical processing. The loop of the Go code handles the path one
`/`-separated element at a time. -/
def Clean (path : GoString) : GoString :=
  if path = [] then lit "."
  else
    let rooted := path.head? = some (ch '/')
    let start : GoString × Nat := if rooted then (lit "/", 1) else ([], 0)
    let rest := if rooted then path.drop 1 else path
    let out := ((rest.splitOn (ch '/')).foldl (cleanStep rooted) start).1
    if out.length = 0 then lit "." else out

/-- Go `path.Join`: join the non-empty elements with slashes and clean the
result; the empty string when all elements are empty. -/
def Join (elem : List GoString) : GoString :=
  if (elem.map List.length).sum = 0 then []
  else
    Clean (elem.foldl (fun buf e =>
      if buf.length > 0 ∨ e ≠ [] then (if buf.length > 0 then buf ++ lit "/" else buf) ++ e
      else buf) [])

end path

/-! ## net/url: URL -/

namespace url

open encoding

/-- Go `url.Userinfo`. -/
structure Userinfo where
  username : GoString
  password : GoString
  passwordSet : Bool
deriving DecidableEq, Repr

/-- Go `url.URL`. -/
structure URL where
  Scheme : GoString := []
  Opaque : GoString := []
  User : Option Userinfo := none
  Host : GoString := []
  Path : GoString := []
  RawPath : GoString := []
  OmitHost : Bool := false
  ForceQuery : Bool := false
  RawQuery : GoString := []
  Fragment : GoString := []
  RawFragment : GoString := []
deriving DecidableEq, Repr

/-- Go `Userinfo.String`. -/
def Userinfo.String (u : Userinfo) : GoString :=
  escape u.username encodeUserPassword ++
    (if u.passwordSet then lit ":" ++ escape u.password encodeUserPassword else [])

/-- Go `stringContainsCTLByte`. -/
def stringContainsCTLByte (s : GoString) : Bool :=
  s.any (fun b => b < ch ' ' || b == 0x7f)

/-- The loop of Go `getScheme`, at index `i` with `rest = rawURL[i:]`. -/
def getSchemeLoop (rawURL : GoString) : (i : Nat) → (rest : GoString) →
    Except GoError (GoString × GoString)
  | _, [] => .ok ([], rawURL)
  | i, c :: t =>
    if (ch 'a' ≤ c ∧ c ≤ ch 'z') ∨ (ch 'A' ≤ c ∧ c ≤ ch 'Z') then
      getSchemeLoop rawURL (i + 1) t
    else if (ch '0' ≤ c ∧ c ≤ ch '9') ∨ c = ch '+' ∨ c = ch '-' ∨ c = ch '.' then
      if i = 0 then .ok ([], rawURL) else getSchemeLoop rawURL (i + 1) t
    else if c = ch ':' then
      if i = 0 then .error (.errorString (lit "missing protocol scheme"))
      else .ok (rawURL.take i, rawURL.drop (i + 1))
    else
      .ok ([], rawURL)

/-- Go `getScheme`: a leading `scheme:` is split off, when there is one. -/
def getScheme (rawURL : GoString) : Except GoError (GoString × GoString) :=
  getSchemeLoop rawURL 0 rawURL

/-- Go `validOptionalPort`: empty, or a colon followed by digits. -/
def validOptionalPort (port : GoString) : Bool :=
  match port with
  | [] => true
  | c :: t => c == ch ':' && t.all (fun b => !(b < ch '0' || b > ch '9'))

/-- Go `validUserinfo`. -/
def validUserinfo (s : GoString) : Bool :=
  s.all (fun r =>
    (ch 'A' ≤ r && r ≤ ch 'Z') || (ch 'a' ≤ r && r ≤ ch 'z') || (ch '0' ≤ r && r ≤ ch '9') ||
      (lit "-._:~!$&\x27()*+,;=%@").contains r)

/-- Go `parseHost`. -/
def parseHost (host : GoString) : Except GoError GoString :=
  if strings.HasPrefix host (lit "[") then
    match strings.LastIndex host (lit "]") with
    | none => .error (.errorString (lit "missing \x27]\x27 in host"))
    | some i =>
      let colonPort := host.drop (i + 1)
      if !validOptionalPort colonPort then
        .error (.errorf (lit "invalid port %q after host") [colonPort])
      else
        match strings.Index (host.take i) (lit "%25") with
        | some zone =>
          match unescape (host.take zone) encodeHost with
          | .error err => .error err
          | .ok host1 =>
            match unescape ((host.take i).drop zone) encodeZone with
            | .error err => .error err
            | .ok host2 =>
              match unescape (host.drop i) encodeHost with
              | .error err => .error err
              | .ok host3 => .ok (host1 ++ host2 ++ host3)
        | none => unescape host encodeHost
  else
    match strings.LastIndex host (lit ":") with
    | some i =>
      let colonPort := host.drop i
      if !validOptionalPort colonPort then
        .error (.errorf (lit "invalid port %q after host") [colonPort])
      else unescape host encodeHost
    | none => unescape host encodeHost

/-- Go `parseAuthority`. -/
def parseAuthority (authority : GoString) : Except GoError (Option Userinfo × GoString) :=
  let i := strings.LastIndex authority (lit "@")
  match parseHost (match i with | none => authority | some i => authority.drop (i + 1)) with
  | .error err => .error err
  | .ok host =>
    match i with
    | none => .ok (none, host)
    | some i =>
      let userinfo := authority.take i
      if !validUserinfo userinfo then
        .error (.errorString (lit "net/url: invalid userinfo"))
      else if !strings.Contains userinfo (lit ":") then
        match unescape userinfo encodeUserPassword with
        | .error err => .error err
        | .ok userinfo => .ok (some ⟨userinfo, [], false⟩, host)
      else
        let up := strings.Cut userinfo (lit ":")
        match unescape up.1 encodeUserPassword with
        | .error err => .error err
        | .ok username =>
          match unescape up.2.1 encodeUserPassword with
          | .error err => .error err
          | .ok password => .ok (some ⟨username, password, true⟩, host)

/-- Go `URL.setPath`: set `Path`, and `RawPath` when the default encoding
of the path differs from `p`. -/
def URL.setPath (u : URL) (p : GoString) : Except GoError URL :=
  match unescape p encodePath with
  | .error err => .error err
  | .ok path =>
    .ok { u with Path := path, RawPath := if p = escape path encodePath then [] else p }

/-- Go `URL.setFragment`. -/
def URL.setFragment (u : URL) (f : GoString) : Except GoError URL :=
  match unescape f encodeFragment with
  | .error err => .error err
  | .ok frag =>
    .ok { u with Fragment := frag,
                 RawFragment := if f = escape frag encodeFragment then [] else f }

/-- Go `URL.EscapedPath`. -/
def URL.EscapedPath (u : URL) : GoString :=
  if u.RawPath ≠ [] ∧ validEncoded u.RawPath encodePath ∧
      unescape u.RawPath encodePath = .ok u.Path then
    u.RawPath
  else if u.Path = lit "*" then lit "*"
  else escape u.Path encodePath

/-- Go `URL.EscapedFragment`. -/
def URL.EscapedFragment (u : URL) : GoString :=
  if u.RawFragment ≠ [] ∧ validEncoded u.RawFragment encodeFragment ∧
      unescape u.RawFragment encodeFragment = .ok u.Fragment then
    u.RawFragment
  else escape u.Fragment encodeFragment

/-- The part of Go `parse` after the scheme and the query are split off:
opaque data, or authority and path. -/
def parseHier (url : URL) (rest : GoString) (viaRequest : Bool) : Except GoError URL :=
  if !strings.HasPrefix rest (lit "/") ∧ url.Scheme ≠ [] then
    -- rootless paths are considered opaque
    .ok { url with Opaque := rest }
  else if !strings.HasPrefix rest (lit "/") ∧ viaRequest then
    .error (.errorString (lit "invalid URI for request"))
  else if !strings.HasPrefix rest (lit "/") ∧
      strings.Contains (strings.Cut rest (lit "/")).1 (lit ":") then
    .error (.errorString (lit "first path segment in URL cannot contain colon"))
  else if (url.Scheme ≠ [] ∨ (!viaRequest ∧ !strings.HasPrefix rest (lit "///"))) ∧
      strings.HasPrefix rest (lit "//") then
    let authority := rest.drop 2
    let split : GoString × GoString :=
      match strings.Index authority (lit "/") with
      | some i => (authority.take i, authority.drop i)
      | none => (authority, [])
    match parseAuthority split.1 with
    | .error err => .error err
    | .ok uh => URL.setPath { url with User := uh.1, Host := uh.2 } split.2
  else if url.Scheme ≠ [] ∧ strings.HasPrefix rest (lit "/") then
    URL.setPath { url with OmitHost := true } rest
  else
    URL.setPath url rest

/-- Go `parse`: parse a URL without a fragment. -/
def parse (rawURL : GoString) (viaRequest : Bool) : Except GoError URL :=
  if stringContainsCTLByte rawURL then
    .error (.errorString (lit "net/url: invalid control character in URL"))
  else if rawURL = [] ∧ viaRequest then
    .error (.errorString (lit "empty url"))
  else if rawURL = lit "*" then
    .ok { Path := lit "*" }
  else
    match getScheme rawURL with
    | .error err => .error err
    | .ok sr =>
      let url : URL := { Scheme := strings.ToLower sr.1 }
      let rest := sr.2
      if strings.HasSuffix rest (lit "?") ∧ strings.Count rest (ch '?') = 1 then
        parseHier { url with ForceQuery := true } (rest.take (rest.length - 1)) viaRequest
      else
        let cut := strings.Cut rest (lit "?")
        parseHier { url with RawQuery := cut.2.1 } cut.1 viaRequest

/-- Go `url.Parse`: parse a raw URL into a `URL`. The URL may be relative
(a path, without a host) or absolute (starting with a scheme). -/
def Parse (rawURL : GoString) : Except GoError URL :=
  let cut := strings.Cut rawURL (lit "#")
  match parse cut.1 false with
  | .error err => .error (.Error (lit "parse") cut.1 err)
  | .ok url =>
    if cut.2.1 = [] then .ok url
    else
      match url.setFragment cut.2.1 with
      | .error err => .error (.Error (lit "parse") rawURL err)
      | .ok url => .ok url

/-- The text that Go `URL.String` writes before the query: scheme, then
opaque data or authority and path. -/
def URL.stringHier (u : URL) : GoString :=
  let buf : GoString := if u.Scheme ≠ [] then u.Scheme ++ lit ":" else []
  if u.Opaque ≠ [] then buf ++ u.Opaque
  else
    let buf :=
      if u.Scheme ≠ [] ∨ u.Host ≠ [] ∨ u.User ≠ none then
        if u.OmitHost ∧ u.Host = [] ∧ u.User = none then buf
        else
          let buf := if u.Host ≠ [] ∨ u.Path ≠ [] ∨ u.User ≠ none then buf ++ lit "//" else buf
          let buf := match u.User with
            | some ui => buf ++ ui.String ++ lit "@"
            | none => buf
          if u.Host ≠ [] then buf ++ escape u.Host encodeHost else buf
      else buf
    let path := u.EscapedPath
    let buf := if path ≠ [] ∧ path.head? ≠ some (ch '/') ∧ u.Host ≠ [] then buf ++ lit "/" else buf
    let buf :=
      if buf.length = 0 ∧ strings.Contains (strings.Cut path (lit "/")).1 (lit ":")
      then buf ++ lit "./" else buf
    buf ++ path

/-- Go `URL.String`: reassemble the URL into a string. -/
def URL.String (u : URL) : GoString :=
  let buf := u.stringHier
  let buf := if u.ForceQuery ∨ u.RawQuery ≠ [] then buf ++ lit "?" ++ u.RawQuery else buf
  if u.Fragment ≠ [] then buf ++ lit "#" ++ u.EscapedFragment else buf

/-- Go `URL.JoinPath`: a copy of the URL with the elements joined to its
path and the result cleaned of `./` and `../`. An error of `setPath` is
dropped, leaving the path of the copy as it was. -/
def URL.JoinPath (u : URL) (elem : List GoString) : URL :=
  let first := u.EscapedPath
  let elem0 := if !strings.HasPrefix first (lit "/") then lit "/" ++ first else first
  let joined := path.Join (elem0 :: elem)
  let p := if !strings.HasPrefix first (lit "/") then joined.drop 1 else joined
  let last := (elem0 :: elem).getLast (List.cons_ne_nil _ _)
  let p := if strings.HasSuffix last (lit "/") ∧ !strings.HasSuffix p (lit "/")
    then p ++ lit "/" else p
  match u.setPath p with
  | .ok url => url
  | .error _ => u

/-- Go `URL.Query`: the parsed `RawQuery`; malformed pairs are dropped. -/
def URL.Query (u : URL) : Values := (ParseQuery u.RawQuery).1

end url

/-! ## net/textproto and net/http -/

namespace http

/-- The table `isTokenTable` of `httpguts`: the bytes of an HTTP token. It
is also `validHeaderFieldByte` of `net/textproto`. -/
def isTokenByte (c : Byte) : Bool :=
  (ch 'a' ≤ c && c ≤ ch 'z') || (ch 'A' ≤ c && c ≤ ch 'Z') || (ch '0' ≤ c && c ≤ ch '9') ||
    (lit "!#$%&\x27*+-.^_\x60|~").contains c

/-- The canonicalising loop of `net/textproto`: upper case for the first
letter and for a letter after a hyphen, lower case for the others. -/
def canonicalLoop : (upper : Bool) → GoString → GoString
  | _, [] => []
  | upper, c :: t =>
    let c :=
      if upper ∧ ch 'a' ≤ c ∧ c ≤ ch 'z' then c - 32
      else if ¬upper ∧ ch 'A' ≤ c ∧ c ≤ ch 'Z' then c + 32
      else c
    c :: canonicalLoop (c = ch '-') t

/-- Go `textproto.CanonicalMIMEHeaderKey`: a key with a byte that is not a
header field byte is returned unchanged. -/
def CanonicalMIMEHeaderKey (s : GoString) : GoString :=
  if s.all isTokenByte then canonicalLoop true s else s

/-- Go `http.Header`, a `map[string][]string`. -/
abbrev Header := AList (fun _ : GoString => List GoString)

/-- Go `Header.Values`: all values under the canonical form of `key`. -/
def Header.Values (h : Header) (key : GoString) : List GoString :=
  (h.lookup (CanonicalMIMEHeaderKey key)).getD []

/-- Go `Header.Get`: the first value under `key`, or the empty string. -/
def Header.Get (h : Header) (key : GoString) : GoString := (h.Values key).headD []

/-- Go `Header.Set`: the entry under `key` becomes the single `value`. -/
def Header.Set (h : Header) (key value : GoString) : Header :=
  h.insert (CanonicalMIMEHeaderKey key) [value]

/-- Go `Header.Add`: `value` is appended to the values under `key`. -/
def Header.Add (h : Header) (key value : GoString) : Header :=
  h.insert (CanonicalMIMEHeaderKey key) (h.Values key ++ [value])

/-- Go `context.Context` values: the background context, or one made by
the caller. -/
inductive Context where
  | Background
  | custom (id : Nat)
deriving DecidableEq, Repr

/-- Go `http.Request`, the fields set by `NewRequestWithContext`. `Body` is
the content that the body reader yields, `none` for a nil body. -/
structure Request where
  ctx : Context
  Method : GoString
  URL : url.URL
  Header : Header
  Body : Option GoString
  ContentLength : Nat
  Host : GoString
deriving DecidableEq

/-- Go `http.Response`, as far as this program looks at it. -/
structure Response where
  StatusCode : Nat
  Header : Header
  Body : GoString
deriving DecidableEq

/-- Go `validMethod`: a method is a non-empty token. -/
def validMethod (method : GoString) : Bool :=
  method.length > 0 && method.all isTokenByte

/-- Go `hasPort`. -/
def hasPort (s : GoString) : Bool :=
  match strings.LastIndex s (lit ":"), strings.LastIndex s (lit "]") with
  | some i, some j => i > j
  | some _, none => true
  | none, _ => false

/-- Go `removeEmptyPort`: strip the empty port in `:` or `[::1]:`. -/
def removeEmptyPort (host : GoString) : GoString :=
  if hasPort host then strings.TrimSuffix host (lit ":") else host

/-- Go `http.NewRequestWithContext`, for a body that is nil or a
`*strings.Reader` with the given content. -/
def NewRequestWithContext (ctx : Option Context) (method urlStr : GoString)
    (body : Option GoString) : Except GoError Request :=
  let method := if method = [] then lit "GET" else method
  if !validMethod method then
    .error (.errorf (lit "net/http: invalid method %q") [method])
  else
    match ctx with
    | none => .error (.errorString (lit "net/http: nil Context"))
    | some ctx =>
      match url.Parse urlStr with
      | .error err => .error err
      | .ok u =>
        let u := { u with Host := removeEmptyPort u.Host }
        .ok { ctx := ctx, Method := method, URL := u, Header := ∅, Body := body,
              ContentLength := (body.getD []).length, Host := u.Host }

/-- Go `http.Transport`: the setting this program touches, and what the
network answers to a request. -/
structure Transport where
  DisableKeepAlives : Bool
  RoundTrip : Request → Option Response × Option GoError

/-- Go `http.Client`. -/
structure Client where
  Transport : Transport

/-- Go `Client.Do`: send the request, return the response or the error.
Redirects, cookies and timeouts are part of the answer of the network. -/
def Client.Do (c : Client) (req : Request) : Option Response × Option GoError :=
  c.Transport.RoundTrip req

end http

/-! ## Package core and the rest of package alldebrid

Code of the repository that `client.go` calls and that is outside the
file. -/

namespace core

/-- Modelled from the spec: the type `core.StoreError` is not in the file.
The spec describes the creation error as a normalized error tagged with the
provider name that wraps the underlying cause; `client.go` sets a message,
`StoreName` and `Cause`. -/
structure StoreError where
  Msg : GoString
  StoreName : GoString
  Cause : Option GoError
deriving DecidableEq

/-- Modelled from the spec: `core.NewStoreError` is not in the file; it
makes a store error with the given message and nothing else set. -/
def NewStoreError (msg : GoString) : StoreError :=
  { Msg := msg, StoreName := [], Cause := none }

end core

namespace alldebrid

/-- The declarations of the repository that `Request` uses and that are
outside `client.go`: the provider name `store.StoreNameAlldebrid`, and the
functions `processResponseBody` (which decodes the response into the
envelope `v`, changing it in place) and `UpstreamErrorFromRequest`. They
are parameters of the embedding. -/
structure Package (Envelope UpstreamError : Type) where
  StoreNameAlldebrid : GoString
  processResponseBody : Option http.Response → Option GoError → Envelope →
    Option GoError × Envelope
  UpstreamErrorFromRequest : GoError → http.Request → Option http.Response → UpstreamError

/-- The dynamic type of a non-nil `error` returned by `Request`. -/
inductive RequestError (UpstreamError : Type) where
  | store (e : core.StoreError)
  | upstream (e : UpstreamError)

/-! ## store/alldebrid/client.go -/

/-- The variable `DefaultHTTPTransport`: a clone of `http.DefaultTransport`
with keep-alives disabled. -/
def DefaultHTTPTransport (httpDefaultTransport : http.Transport) : http.Transport :=
  { httpDefaultTransport with DisableKeepAlives := true }

/-- The variable `DefaultHTTPClient`. -/
def DefaultHTTPClient (httpDefaultTransport : http.Transport) : http.Client :=
  { Transport := DefaultHTTPTransport httpDefaultTransport }

/-- The struct `APIClientConfig`. -/
structure APIClientConfig where
  BaseURL : GoString := []
  APIKey : GoString := []
  HTTPClient : Option http.Client := none
  agent : GoString := []

/-- The struct `APIClient`. Its two pointers are dereferenced without a
test by the methods, so they are modelled as the values they point to. -/
structure APIClient where
  BaseURL : url.URL
  HTTPClient : http.Client
  apiKey : GoString
  agent : GoString

/-- The function `NewAPIClient`. The configuration is passed by pointer and
assigned to, so its final value is returned with the client;
`.error err` stands for `panic(err)`. -/
def NewAPIClient (httpDefaultTransport : http.Transport) (conf : APIClientConfig) :
    Except GoError (APIClient × APIClientConfig) :=
  let conf := if conf.agent = [] then { conf with agent := lit "stremthru" } else conf
  let conf :=
    if conf.BaseURL = [] then { conf with BaseURL := lit "https://api.alldebrid.com" } else conf
  let conf :=
    if conf.HTTPClient.isNone
    then { conf with HTTPClient := some (DefaultHTTPClient httpDefaultTransport) } else conf
  match url.Parse conf.BaseURL with
  | .error err => .error err
  | .ok baseUrl =>
    -- conf.HTTPClient is non-nil here: the default of getD is never taken
    .ok ({ BaseURL := baseUrl,
           HTTPClient := conf.HTTPClient.getD (DefaultHTTPClient httpDefaultTransport),
           apiKey := conf.APIKey,
           agent := conf.agent }, conf)

/-- The interface `RequestContext`: a value of it is the record of its
three methods. `getBody` receives the query collector by pointer and may
add to it, so it returns the collector as well; `setAuthHeader` receives the
request by pointer and returns it changed. -/
structure RequestContext where
  getContext : Option http.Context
  getBody : GoString → url.Values → (Option GoString × GoString) × url.Values
  setAuthHeader : http.Request → GoString → http.Request

/-- The struct `Ctx`. -/
structure Ctx where
  APIKey : GoString := []
  Context : Option http.Context := none
  Form : Option url.Values := none

/-- Constant `http.MethodGet`. -/
def MethodGet : GoString := lit "GET"

/-- Constant `http.MethodHead`. -/
def MethodHead : GoString := lit "HEAD"

/-- The method `Ctx.getContext`. -/
def Ctx.getContext (rc : Ctx) : http.Context :=
  match rc.Context with
  | none => http.Context.Background
  | some ctx => ctx

/-- The method `Ctx.getBody`: `(body, contentType)` and the query collector
after the call. The loop over the map visits its entries in the order of
the association list. -/
def Ctx.getBody (rc : Ctx) (method : GoString) (query : url.Values) :
    (Option GoString × GoString) × url.Values :=
  match rc.Form with
  | some form =>
    if method = MethodHead ∨ method = MethodGet then
      ((none, []),
        form.entries.foldl
          (fun query kv => kv.2.foldl (fun query value => query.Add kv.1 value) query) query)
    else
      ((some form.Encode, lit "application/x-www-form-urlencoded"), query)
  | none => ((none, []), query)

/-- The method `Ctx.setAuthHeader`. -/
def Ctx.setAuthHeader (rc : Ctx) (req : http.Request) (apiKey : GoString) : http.Request :=
  let apiKey := if rc.APIKey.length > 0 then rc.APIKey else apiKey
  { req with Header := req.Header.Set (lit "Authorization") (lit "Bearer " ++ apiKey) }

/-- A `Ctx` as a value of the interface `RequestContext`. -/
def Ctx.toRequestContext (rc : Ctx) : RequestContext :=
  { getContext := some rc.getContext
    getBody := rc.getBody
    setAuthHeader := rc.setAuthHeader }

/-- The method `APIClient.newRequest`. -/
def APIClient.newRequest (c : APIClient) (method path : GoString)
    (params : Option RequestContext) : Except GoError http.Request :=
  let params := match params with
    | none => Ctx.toRequestContext {}
    | some params => params
  let url := c.BaseURL.JoinPath [path]
  let query := url.Query
  let query := query.Set (lit "agent") c.agent
  let bq := params.getBody method query
  let body := bq.1.1
  let contentType := bq.1.2
  let query := bq.2
  let url := { url with RawQuery := query.Encode }
  match http.NewRequestWithContext params.getContext method url.String body with
  | .error err => .error err
  | .ok req =>
    let req := params.setAuthHeader req c.apiKey
    let req := { req with Header := req.Header.Add (lit "User-Agent") c.agent }
    let req :=
      if contentType.length > 0
      then { req with Header := req.Header.Add (lit "Content-Type") contentType } else req
    .ok req

/-- The method `APIClient.Request`: the pair `(response, error)` it returns
and the envelope `v` after the call. -/
def APIClient.Request {Envelope UpstreamError : Type} (pkg : Package Envelope UpstreamError)
    (c : APIClient) (method path : GoString) (params : Option RequestContext) (v : Envelope) :
    (Option http.Response × Option (RequestError UpstreamError)) × Envelope :=
  match c.newRequest method path params with
  | .error err =>
    let error := core.NewStoreError (lit "failed to create request")
    let error := { error with StoreName := pkg.StoreNameAlldebrid }
    let error := { error with Cause := some err }
    ((none, some (.store error)), v)
  | .ok req =>
    let re := c.HTTPClient.Do req
    let res := re.1
    let ev := pkg.processResponseBody res re.2 v
    match ev.1 with
    | some err => ((res, some (.upstream (pkg.UpstreamErrorFromRequest err req res))), ev.2)
    | none => ((res, none), ev.2)

end alldebrid

/-! ## Sample values used to instantiate the statements -/

namespace alldebrid

/-- A network that refuses every connection. -/
def refusingTransport : http.Transport :=
  { DisableKeepAlives := false
    RoundTrip := fun _ => (none, some (.errorString (lit "connection refused"))) }

/-- The client that `NewAPIClient` builds from a configuration that sets the
API key only. -/
def defaultClient : APIClient :=
  { BaseURL := { Scheme := lit "https", Host := lit "api.alldebrid.com" }
    HTTPClient := DefaultHTTPClient refusingTransport
    apiKey := lit "secret"
    agent := lit "stremthru" }

/-- The form `{"key": ["a", "b"]}`. -/
def formKeyAB : url.Values := (∅ : url.Values).insert (lit "key") [lit "a", lit "b"]

/-- The form `{"magnets": ["m1"]}`. -/
def formMagnets : url.Values := (∅ : url.Values).insert (lit "magnets") [lit "m1"]

/-- The request that the default client builds for
`newRequest("POST", "/magnet/upload", Ctx{Form: {"magnets": ["m1"]}})`. -/
def requestMagnets : http.Request :=
  { ctx := http.Context.Background
    Method := lit "POST"
    URL := { Scheme := lit "https", Host := lit "api.alldebrid.com",
             Path := lit "/magnet/upload", RawQuery := lit "agent=stremthru" }
    Header := (((∅ : http.Header).insert (lit "Authorization") [lit "Bearer secret"]).insert
      (lit "User-Agent") [lit "stremthru"]).insert
      (lit "Content-Type") [lit "application/x-www-form-urlencoded"]
    Body := some (lit "magnets=m1")
    ContentLength := 10
    Host := lit "api.alldebrid.com" }

/-- The request that the default client builds for
`newRequest("GET", "/user", Ctx{Form: {"key": ["a", "b"]}})`. -/
def requestKeyAB : http.Request :=
  { ctx := http.Context.Background
    Method := lit "GET"
    URL := { Scheme := lit "https", Host := lit "api.alldebrid.com",
             Path := lit "/user", RawQuery := lit "agent=stremthru&key=a&key=b" }
    Header := ((∅ : http.Header).insert (lit "Authorization") [lit "Bearer secret"]).insert
      (lit "User-Agent") [lit "stremthru"]
    Body := none
    ContentLength := 0
    Host := lit "api.alldebrid.com" }

/-- A client whose base URL has a path and a query with an `agent`
parameter: the parse of `https://api.alldebrid.com/v4?agent=old&x=1`. -/
def clientWithQuery : APIClient :=
  { BaseURL := { Scheme := lit "https", Host := lit "api.alldebrid.com", Path := lit "/v4",
                 RawQuery := lit "agent=old&x=1" }
    HTTPClient := DefaultHTTPClient refusingTransport
    apiKey := lit "secret"
    agent := lit "stremthru" }

/-- A context with a key override and the form `{"agent": ["evil"]}`. -/
def ctxAgent : Ctx :=
  { APIKey := lit "override"
    Form := some ((∅ : url.Values).insert (lit "agent") [lit "evil"]) }

/-- The request that `clientWithQuery` builds for
`newRequest("GET", "/user", ctxAgent)`. -/
def requestAgent : http.Request :=
  { ctx := http.Context.Background
    Method := lit "GET"
    URL := { Scheme := lit "https", Host := lit "api.alldebrid.com", Path := lit "/v4/user",
             RawQuery := lit "agent=stremthru&agent=evil&x=1" }
    Header := ((∅ : http.Header).insert (lit "Authorization") [lit "Bearer override"]).insert
      (lit "User-Agent") [lit "stremthru"]
    Body := none
    ContentLength := 0
    Host := lit "api.alldebrid.com" }

/-- The request that the default client builds for `newRequest("GET",
"/user", nil)`. -/
def requestUser : http.Request :=
  { ctx := http.Context.Background
    Method := lit "GET"
    URL := { Scheme := lit "https", Host := lit "api.alldebrid.com", Path := lit "/user",
             RawQuery := lit "agent=stremthru" }
    Header := ((∅ : http.Header).insert (lit "Authorization") [lit "Bearer secret"]).insert
      (lit "User-Agent") [lit "stremthru"]
    Body := none
    ContentLength := 0
    Host := lit "api.alldebrid.com" }

/-- A response with status 500 and a body that is no envelope. -/
def responseServerError : http.Response :=
  { StatusCode := 500, Header := ∅, Body := lit "internal error" }

/-- A network that answers every request with `responseServerError`. -/
def serverErrorTransport : http.Transport :=
  { DisableKeepAlives := true
    RoundTrip := fun _ => (some responseServerError, none) }

/-- The default client on the network `serverErrorTransport`. -/
def serverErrorClient : APIClient :=
  { defaultClient with HTTPClient := { Transport := serverErrorTransport } }

/-- A sample normalized upstream error, after section 3 of the spec: the
cause, the originating request and the response, if any. -/
structure SampleUpstreamError where
  Cause : GoError
  Request : http.Request
  Response : Option http.Response
deriving DecidableEq

/-- A sample of the declarations outside `client.go`, after section 4.4 of
the spec: the envelope is the decoded text; processing a response fails with
the transport error when there is one, fails when there is no response or
its status is not 200, and otherwise stores the body in the envelope. -/
def samplePackage : Package GoString SampleUpstreamError :=
  { StoreNameAlldebrid := lit "alldebrid"
    processResponseBody := fun res err v =>
      match err, res with
      | some e, _ => (some e, v)
      | none, none => (some (.errorString (lit "no response")), v)
      | none, some r =>
        if r.StatusCode = 200 then (none, r.Body)
        else (some (.errorString (lit "undecodable response")), v)
    UpstreamErrorFromRequest := fun cause req res =>
      { Cause := cause, Request := req, Response := res } }

/-- A configuration that sets the API key only. -/
def confKeyOnly : APIClientConfig := { APIKey := lit "secret" }

/-- The configuration `confKeyOnly` after the call of `NewAPIClient`. -/
def confKeyOnlyAfter : APIClientConfig :=
  { BaseURL := lit "https://api.alldebrid.com"
    APIKey := lit "secret"
    HTTPClient := some (DefaultHTTPClient refusingTransport)
    agent := lit "stremthru" }

/-- The request that the default client builds for
`newRequest("", "/user", Ctx{Form: {"key": ["a", "b"]}})`. -/
def requestEmptyMethod : http.Request :=
  { ctx := http.Context.Background
    Method := lit "GET"
    URL := { Scheme := lit "https", Host := lit "api.alldebrid.com", Path := lit "/user",
             RawQuery := lit "agent=stremthru" }
    Header := (((∅ : http.Header).insert (lit "Authorization") [lit "Bearer secret"]).insert
      (lit "User-Agent") [lit "stremthru"]).insert
      (lit "Content-Type") [lit "application/x-www-form-urlencoded"]
    Body := some (lit "key=a&key=b")
    ContentLength := 11
    Host := lit "api.alldebrid.com" }

/-- The request that the default client builds for
`newRequest("POST", "/user", Ctx{Form: {}})`, with an empty form. -/
def requestEmptyForm : http.Request :=
  { ctx := http.Context.Background
    Method := lit "POST"
    URL := { Scheme := lit "https", Host := lit "api.alldebrid.com", Path := lit "/user",
             RawQuery := lit "agent=stremthru" }
    Header := (((∅ : http.Header).insert (lit "Authorization") [lit "Bearer secret"]).insert
      (lit "User-Agent") [lit "stremthru"]).insert
      (lit "Content-Type") [lit "application/x-www-form-urlencoded"]
    Body := some []
    ContentLength := 0
    Host := lit "api.alldebrid.com" }

/-- The form `{"a": ["1", "2"], "b": ["3"]}`, enumerated with `b` first. -/
def formTwoKeys : url.Values :=
  ((∅ : url.Values).insert (lit "a") [lit "1", lit "2"]).insert (lit "b") [lit "3"]

/-- The form `{"a": ["1", "2"], "b": ["3"]}`, enumerated with `a` first. -/
def formTwoKeysOther : url.Values :=
  ((∅ : url.Values).insert (lit "b") [lit "3"]).insert (lit "a") [lit "1", lit "2"]

end alldebrid

/-! # Theorems -/

/-! ## Lemmas: Values -/

namespace url.Values

theorem index_Add_self (v : Values) (k x : GoString) : (v.Add k x).index k = v.index k ++ [x] := by
  simp [Add, index]

theorem lookup_Add_ne (v : Values) {k k1 : GoString} (x : GoString) (h : k1 ≠ k) :
    (v.Add k x).lookup k1 = v.lookup k1 := by
  simp [Add, AList.lookup_insert_ne h]

theorem index_Add_ne (v : Values) {k k1 : GoString} (x : GoString) (h : k1 ≠ k) :
    (v.Add k x).index k1 = v.index k1 := by
  simp [index, lookup_Add_ne v x h]

theorem index_Set_self (v : Values) (k x : GoString) : (v.Set k x).index k = [x] := by
  simp [Set, index]

theorem lookup_Set_ne (v : Values) {k k1 : GoString} (x : GoString) (h : k1 ≠ k) :
    (v.Set k x).lookup k1 = v.lookup k1 := by
  simp [Set, AList.lookup_insert_ne h]

theorem index_Set_ne (v : Values) {k k1 : GoString} (x : GoString) (h : k1 ≠ k) :
    (v.Set k x).index k1 = v.index k1 := by
  simp [index, lookup_Set_ne v x h]

/-- Adding a list of values under one key appends them to that key. -/
theorem index_foldl_Add_self (k : GoString) (vs : List GoString) (q : Values) :
    (vs.foldl (fun query value => query.Add k value) q).index k = q.index k ++ vs := by
  induction vs generalizing q with
  | nil => simp
  | cons x t ih => simp [ih, index_Add_self]

theorem lookup_foldl_Add_ne {k k1 : GoString} (h : k1 ≠ k) (vs : List GoString) (q : Values) :
    (vs.foldl (fun query value => query.Add k value) q).lookup k1 = q.lookup k1 := by
  induction vs generalizing q with
  | nil => simp
  | cons x t ih => simp [ih, lookup_Add_ne _ _ h]

end url.Values

namespace alldebrid

/-- The loop of `getBody` over the entries of the form. -/
theorem index_foldl_entries (k : GoString) :
    ∀ (entries : List (Sigma (fun _ : GoString => List GoString))) (q : url.Values),
      entries.NodupKeys →
      (entries.foldl
          (fun query kv => kv.2.foldl (fun query value => url.Values.Add query kv.1 value) query)
          q).index k = q.index k ++ (entries.dlookup k).getD [] := by
  intro entries
  induction entries with
  | nil => intro q _; simp
  | cons e t ih =>
    intro q hnd
    obtain ⟨k0, vs⟩ := e
    rw [List.nodupKeys_cons] at hnd
    simp only [List.foldl_cons]
    rw [ih _ hnd.2]
    by_cases hk : k = k0
    · subst hk
      have : t.dlookup k = none := List.dlookup_eq_none.mpr hnd.1
      simp [url.Values.index_foldl_Add_self, this]
    · have h1 := url.Values.lookup_foldl_Add_ne hk vs q
      simp [url.Values.index, h1, List.dlookup_cons_ne t ⟨k0, vs⟩ hk]

theorem lookup_foldl_entries (k : GoString) :
    ∀ (entries : List (Sigma (fun _ : GoString => List GoString))) (q : url.Values),
      k ∉ entries.keys →
      (entries.foldl
          (fun query kv => kv.2.foldl (fun query value => url.Values.Add query kv.1 value) query)
          q).lookup k = q.lookup k := by
  intro entries
  induction entries with
  | nil => intro q _; simp
  | cons e t ih =>
    intro q hk
    obtain ⟨k0, vs⟩ := e
    simp only [List.keys_cons, List.mem_cons, not_or] at hk
    simp only [List.foldl_cons]
    rw [ih _ hk.2]
    exact url.Values.lookup_foldl_Add_ne hk.1 vs q

/-- C2: for a non-nil form and method GET or HEAD, `getBody` returns no
body and an empty content type; under every key the collector then holds
its former values followed by the values of the form under that key, in
their order; and a key that the form does not have keeps its entry. -/
theorem getBody_get_head (rc : Ctx) (form : url.Values) (method : GoString) (query : url.Values)
    (hform : rc.Form = some form) (hm : method = lit "GET" ∨ method = lit "HEAD") :
    (rc.getBody method query).1 = (none, []) ∧
    (∀ k, (rc.getBody method query).2.index k = query.index k ++ form.index k) ∧
    (∀ k, form.lookup k = none → (rc.getBody method query).2.lookup k = query.lookup k) := by
  have hm2 : method = MethodHead ∨ method = MethodGet := by
    rcases hm with h | h
    · exact Or.inr h
    · exact Or.inl h
  refine ⟨?_, ?_, ?_⟩
  · simp [Ctx.getBody, hform, hm2]
  · intro k
    simp only [Ctx.getBody, hform, hm2, if_true]
    rw [index_foldl_entries k form.entries query form.nodupKeys]
    rfl
  · intro k hk
    simp only [Ctx.getBody, hform, hm2, if_true]
    exact lookup_foldl_entries k form.entries query (by
      rw [AList.lookup_eq_none] at hk
      exact hk)

end alldebrid

/-! ## Lemmas: strings -/

namespace strings

theorem Cut_nil (sep : Byte) : Cut [] [sep] = ([], [], false) := by
  simp [Cut, List.isPrefixOf]

theorem Cut_cons_self (sep : Byte) (t : GoString) : Cut (sep :: t) [sep] = ([], t, true) := by
  rw [Cut]; simp [List.isPrefixOf]

theorem Cut_cons_ne {sep c : Byte} (t : GoString) (h : c ≠ sep) :
    Cut (c :: t) [sep] = (c :: (Cut t [sep]).1, (Cut t [sep]).2.1, (Cut t [sep]).2.2) := by
  rw [Cut]
  have : (sep == c) = false := by simpa using (Ne.symm h)
  simp [List.isPrefixOf, this]

/-- Cutting at the first separator, when the text before it has none. -/
theorem Cut_append_of_not_mem {sep : Byte} (h t : GoString) (hh : sep ∉ h) :
    Cut (h ++ sep :: t) [sep] = (h, t, true) := by
  induction h with
  | nil => exact Cut_cons_self sep t
  | cons c h ih =>
    simp only [List.mem_cons, not_or] at hh
    simp [List.cons_append, Cut_cons_ne _ (Ne.symm hh.1), ih hh.2]

/-- Cutting a text without the separator. -/
theorem Cut_of_not_mem {sep : Byte} (h : GoString) (hh : sep ∉ h) :
    Cut h [sep] = (h, [], false) := by
  induction h with
  | nil => exact Cut_nil sep
  | cons c h ih =>
    simp only [List.mem_cons, not_or] at hh
    simp [Cut_cons_ne _ (Ne.symm hh.1), ih hh.2]

/-- A text splits at its first separator. -/
theorem Cut_eq (sep : Byte) (s : GoString) :
    sep ∉ (Cut s [sep]).1 ∧
      ((Cut s [sep]).2.2 = true ∧ s = (Cut s [sep]).1 ++ sep :: (Cut s [sep]).2.1 ∨
       (Cut s [sep]).2.2 = false ∧ s = (Cut s [sep]).1 ∧ (Cut s [sep]).2.1 = []) := by
  induction s with
  | nil => simp [Cut_nil]
  | cons c t ih =>
    by_cases hc : c = sep
    · subst hc; simp [Cut_cons_self]
    · rw [Cut_cons_ne t hc]
      refine ⟨?_, ?_⟩
      · simp only [List.mem_cons, not_or]; exact ⟨Ne.symm hc, ih.1⟩
      · rcases ih.2 with ⟨h1, h2⟩ | ⟨h1, h2, h3⟩
        · left; refine ⟨h1, ?_⟩; simp only [List.cons_append]; rw [← h2]
        · right; refine ⟨h1, ?_, h3⟩; simp only; rw [← h2]

theorem HasSuffix_singleton (s : GoString) (b : Byte) :
    HasSuffix s [b] = true ↔ s.getLast? = some b := by
  simp only [HasSuffix, List.isSuffixOf_iff_suffix]
  constructor
  · rintro ⟨t, rfl⟩; simp
  · intro h
    rcases List.eq_nil_or_concat s with h0 | ⟨l, a, rfl⟩
    · subst h0; simp at h
    · simp only [List.concat_eq_append, List.getLast?_append, List.getLast?_singleton,
        Option.or, Option.some.injEq] at h
      subst h
      exact ⟨l, by simp⟩

end strings

/-! ## Lemmas: escaping -/

namespace url

open encoding

theorem getD_mem_or (l : GoString) (n : Nat) (d : Byte) : l.getD n d ∈ l ∨ l.getD n d = d := by
  by_cases h : n < l.length
  · left
    rw [List.getD_eq_getElem _ _ h]
    exact List.getElem_mem h
  · right
    exact List.getD_eq_default _ _ (not_lt.mp h)

/-- Every byte that `escape` writes is a `+`, a `%`, a hexadecimal digit, or
a byte of the input that needs no escaping. -/
theorem mem_escape (mode : encoding) (x : Byte) :
    ∀ s : GoString, x ∈ escape s mode →
      x = ch '+' ∨ x = ch '%' ∨ x ∈ upperhex ∨ x = 0 ∨ shouldEscape x mode = false := by
  intro s
  induction s with
  | nil => intro h; simp [escape] at h
  | cons c t ih =>
    intro h
    rw [escape] at h
    split_ifs at h with h1 h2
    · rcases List.mem_cons.mp h with h | h
      · exact Or.inl h
      · exact ih h
    · simp only [List.mem_cons] at h
      rcases h with h | h | h | h
      · exact Or.inr (Or.inl h)
      · rcases getD_mem_or upperhex (c.val / 16) 0 with h3 | h3
        · exact Or.inr (Or.inr (Or.inl (h ▸ h3)))
        · exact Or.inr (Or.inr (Or.inr (Or.inl (h.trans h3))))
      · rcases getD_mem_or upperhex (c.val % 16) 0 with h3 | h3
        · exact Or.inr (Or.inr (Or.inl (h ▸ h3)))
        · exact Or.inr (Or.inr (Or.inr (Or.inl (h.trans h3))))
      · exact ih h
    · rcases List.mem_cons.mp h with h | h
      · subst h
        right; right; right; right
        simpa using h2
      · exact ih h

set_option maxRecDepth 100000 in
theorem escOut_query : ∀ x : Byte,
    (x = ch '+' ∨ x = ch '%' ∨ x ∈ upperhex ∨ x = 0 ∨ shouldEscape x encodeQueryComponent = false) →
      x ≠ ch '&' ∧ x ≠ ch '=' ∧ x ≠ ch '#' ∧ x ≠ ch ';' ∧ x ≠ ch '?' := by
  decide

set_option maxRecDepth 100000 in
theorem escOut_hier : ∀ mode : encoding, ∀ x : Byte,
    (mode = encodeHost ∨ mode = encodeUserPassword ∨ mode = encodePath) →
    (x = ch '+' ∨ x = ch '%' ∨ x ∈ upperhex ∨ x = 0 ∨ shouldEscape x mode = false) →
      x ≠ ch '#' ∧ x ≠ ch '?' := by
  intro mode x hm
  rcases hm with rfl | rfl | rfl <;> revert x <;> decide

/-- An escaped query component has none of the bytes that delimit a query. -/
theorem QueryEscape_no_delim (s : GoString) (x : Byte) (h : x ∈ QueryEscape s) :
    x ≠ ch '&' ∧ x ≠ ch '=' ∧ x ≠ ch '#' ∧ x ≠ ch ';' ∧ x ≠ ch '?' :=
  escOut_query x (mem_escape _ x s h)

/-- An escaped host, user name, password or path has no `#` and no `?`. -/
theorem escape_no_delim (s : GoString) (mode : encoding)
    (hm : mode = encodeHost ∨ mode = encodeUserPassword ∨ mode = encodePath)
    (x : Byte) (h : x ∈ escape s mode) : x ≠ ch '#' ∧ x ≠ ch '?' :=
  escOut_hier mode x hm (mem_escape _ x s h)

end url

/-! ## Lemmas: parsing a URL -/

namespace url

open encoding

theorem setPath_ok {u u1 : URL} {p : GoString} (h : u.setPath p = .ok u1) :
    ∃ path raw, u1 = { u with Path := path, RawPath := raw } := by
  unfold URL.setPath at h
  split at h
  · cases h
  · cases h; exact ⟨_, _, rfl⟩

theorem setFragment_ok {u u1 : URL} {f : GoString} (h : u.setFragment f = .ok u1) :
    ∃ frag raw, u1 = { u with Fragment := frag, RawFragment := raw } := by
  unfold URL.setFragment at h
  split at h
  · cases h
  · cases h; exact ⟨_, _, rfl⟩

/-- What `parseHier` leaves alone: scheme and query; and the opaque part is
empty or the whole rest. -/
theorem parseHier_ok {url u1 : URL} {rest : GoString} {v : Bool}
    (h : parseHier url rest v = .ok u1) (hO : url.Opaque = []) :
    u1.Scheme = url.Scheme ∧ u1.RawQuery = url.RawQuery ∧ u1.ForceQuery = url.ForceQuery ∧
      (u1.Opaque = [] ∨ u1.Opaque = rest) := by
  unfold parseHier at h
  split_ifs at h
  · cases h; simp
  · simp only at h
    split at h
    · cases h
    · obtain ⟨p, r, rfl⟩ := setPath_ok h
      simp [hO]
  · obtain ⟨p, r, rfl⟩ := setPath_ok h
    simp [hO]
  · obtain ⟨p, r, rfl⟩ := setPath_ok h
    simp [hO]

set_option maxRecDepth 100000 in
theorem schemeLetter_ok : ∀ c : Byte,
    ((ch 'a' ≤ c ∧ c ≤ ch 'z') ∨ (ch 'A' ≤ c ∧ c ≤ ch 'Z')) →
      c ≠ ch '?' ∧ c ≠ ch '#' ∧ strings.toLowerByte c ≠ ch '?' ∧
        strings.toLowerByte c ≠ ch '#' := by
  decide

set_option maxRecDepth 100000 in
theorem schemeDigit_ok : ∀ c : Byte,
    ((ch '0' ≤ c ∧ c ≤ ch '9') ∨ c = ch '+' ∨ c = ch '-' ∨ c = ch '.') →
      c ≠ ch '?' ∧ c ≠ ch '#' ∧ strings.toLowerByte c ≠ ch '?' ∧
        strings.toLowerByte c ≠ ch '#' := by
  decide

/-- The result of the scheme loop: no scheme and the whole text, or a scheme
of letters, digits, `+`, `-`, `.` and the text after its colon. -/
theorem getSchemeLoop_ok (raw : GoString) :
    ∀ (rest pre s r : GoString), raw = pre ++ rest →
      (∀ c ∈ pre, c ≠ ch '?' ∧ c ≠ ch '#' ∧ strings.toLowerByte c ≠ ch '?' ∧
        strings.toLowerByte c ≠ ch '#') →
      getSchemeLoop raw pre.length rest = .ok (s, r) →
      (s = [] ∧ r = raw) ∨
        (raw = s ++ ch ':' :: r ∧ ∀ c ∈ s, c ≠ ch '?' ∧ c ≠ ch '#' ∧
          strings.toLowerByte c ≠ ch '?' ∧ strings.toLowerByte c ≠ ch '#') := by
  intro rest
  induction rest with
  | nil => intro pre s r _ _ h; simp only [getSchemeLoop] at h; cases h; exact Or.inl ⟨rfl, rfl⟩
  | cons c t ih =>
    intro pre s r hraw hpre h
    have hstep : ∀ (hc : c ≠ ch '?' ∧ c ≠ ch '#' ∧ strings.toLowerByte c ≠ ch '?' ∧
        strings.toLowerByte c ≠ ch '#'),
        getSchemeLoop raw (pre.length + 1) t = .ok (s, r) →
        (s = [] ∧ r = raw) ∨
        (raw = s ++ ch ':' :: r ∧ ∀ c ∈ s, c ≠ ch '?' ∧ c ≠ ch '#' ∧
          strings.toLowerByte c ≠ ch '?' ∧ strings.toLowerByte c ≠ ch '#') := by
      intro hc h2
      apply ih (pre ++ [c]) s r (by simp [hraw]) _ (by simpa using h2)
      intro x hx
      rcases List.mem_append.mp hx with hx | hx
      · exact hpre x hx
      · simp only [List.mem_singleton] at hx; subst hx; exact hc
    rw [getSchemeLoop] at h
    split_ifs at h with h1 h2 h3 h4 h5
    · exact hstep (schemeLetter_ok c h1) h
    · cases h; exact Or.inl ⟨rfl, rfl⟩
    · exact hstep (schemeDigit_ok c h2) h
    · have e1 : raw.take pre.length = pre := by rw [hraw]; simp
      have e2 : raw.drop (pre.length + 1) = t := by rw [hraw]; simp
      rw [e1, e2] at h
      cases h
      right
      refine ⟨?_, hpre⟩
      rw [hraw, h4]
    · cases h; exact Or.inl ⟨rfl, rfl⟩


theorem getScheme_ok {raw s r : GoString} (h : getScheme raw = .ok (s, r)) :
    (s = [] ∧ r = raw) ∨
      (raw = s ++ ch ':' :: r ∧ ∀ c ∈ s, c ≠ ch '?' ∧ c ≠ ch '#' ∧
        strings.toLowerByte c ≠ ch '?' ∧ strings.toLowerByte c ≠ ch '#') :=
  getSchemeLoop_ok raw raw [] s r rfl (by simp) h

/-- The rest after the scheme is a tail of the text, and what precedes it
has no `?`. -/
theorem getScheme_split {raw s r : GoString} (h : getScheme raw = .ok (s, r)) :
    ∃ a, raw = a ++ r ∧ ch '?' ∉ a ∧
      (∀ x ∈ strings.ToLower s, x ≠ ch '?' ∧ x ≠ ch '#') := by
  rcases getScheme_ok h with ⟨h1, h2⟩ | ⟨h1, h2⟩
  · subst h1 h2; exact ⟨[], rfl, by simp, by simp [strings.ToLower]⟩
  · refine ⟨s ++ [ch ':'], by simp [h1], ?_, ?_⟩
    · simp only [List.mem_append, List.mem_singleton, not_or]
      exact ⟨fun hm => (h2 _ hm).1 rfl, by decide⟩
    · intro x hx
      simp only [strings.ToLower, List.mem_map] at hx
      obtain ⟨c, hc, rfl⟩ := hx
      exact ⟨(h2 c hc).2.2.1, (h2 c hc).2.2.2⟩

/-- Removing the final `?` of a text with exactly one `?`. -/
theorem not_mem_take_of_count {r : GoString} (h1 : strings.HasSuffix r (lit "?") = true)
    (h2 : strings.Count r (ch '?') = 1) : ch '?' ∉ r.take (r.length - 1) := by
  have hl : lit "?" = [ch '?'] := by decide
  rw [hl, strings.HasSuffix, List.isSuffixOf_iff_suffix] at h1
  obtain ⟨t, rfl⟩ := h1
  simp only [strings.Count, List.count_append, List.count_singleton_self] at h2
  have h0 : List.count (ch '?') t = 0 := by omega
  simpa using List.count_eq_zero.mp h0

/-- Postcondition of `parse`: scheme and opaque part have no `?` and, when
the text has none, no `#`. -/
theorem parse_ok_noDelim {raw : GoString} {u : URL} (h : parse raw false = .ok u)
    (hraw : ch '#' ∉ raw) :
    (∀ x ∈ u.Scheme, x ≠ ch '?' ∧ x ≠ ch '#') ∧ (∀ x ∈ u.Opaque, x ≠ ch '?' ∧ x ≠ ch '#') := by
  unfold parse at h
  split_ifs at h with h1 h2 h3
  · cases h; simp
  · split at h
    · cases h
    · rename_i sr hsr
      obtain ⟨s, r⟩ := sr
      obtain ⟨a, hsplit, -, hlow⟩ := getScheme_split hsr
      have hr : ∀ x ∈ r, x ≠ ch '#' := by
        intro x hx hx2
        apply hraw
        rw [hsplit, ← hx2]
        exact List.mem_append_right _ hx
      simp only at h
      split_ifs at h with h4
      · obtain ⟨e1, -, -, e4⟩ := parseHier_ok h rfl
        simp only at e1 e4
        refine ⟨by rw [e1]; exact hlow, ?_⟩
        rcases e4 with e4 | e4
        · simp [e4]
        · rw [e4]
          intro x hx
          refine ⟨?_, hr x (List.mem_of_mem_take hx)⟩
          rintro rfl
          exact not_mem_take_of_count h4.1 h4.2 hx
      · obtain ⟨e1, -, -, e4⟩ := parseHier_ok h rfl
        simp only at e1 e4
        refine ⟨by rw [e1]; exact hlow, ?_⟩
        rcases e4 with e4 | e4
        · simp [e4]
        · rw [e4]
          have hl : lit "?" = [ch '?'] := by decide
          rw [hl]
          have hc := strings.Cut_eq (ch '?') r
          intro x hx
          refine ⟨?_, ?_⟩
          · rintro rfl; exact hc.1 hx
          · apply hr
            rcases hc.2 with ⟨-, h6⟩ | ⟨-, h6, -⟩
            · rw [h6]; exact List.mem_append_left _ hx
            · rw [h6]; exact hx


/-- Postcondition of `Parse`: the scheme and the opaque part of a parsed
URL have no `?` and no `#`. -/
theorem Parse_ok_noDelim {s : GoString} {u : URL} (h : Parse s = .ok u) :
    (∀ x ∈ u.Scheme, x ≠ ch '?' ∧ x ≠ ch '#') ∧ (∀ x ∈ u.Opaque, x ≠ ch '?' ∧ x ≠ ch '#') := by
  unfold Parse at h
  have hl : lit "#" = [ch '#'] := by decide
  rw [hl] at h
  simp only at h
  split at h
  · cases h
  · rename_i url hurl
    have hp := parse_ok_noDelim hurl (strings.Cut_eq (ch '#') s).1
    split_ifs at h
    · cases h; exact hp
    · split at h
      · cases h
      · rename_i u2 hu2
        cases h
        obtain ⟨f, r, rfl⟩ := setFragment_ok hu2
        exact hp

theorem tail_split {a r h q : GoString} (he : a ++ r = h ++ ch '?' :: q)
    (ha : ch '?' ∉ a) : ∃ h1, r = h1 ++ ch '?' :: q ∧ h = a ++ h1 := by
  rcases List.append_eq_append_iff.mp he with ⟨a1, h1, h2⟩ | ⟨c1, h1, h2⟩
  · exact ⟨a1, h2, h1⟩
  · cases c1 with
    | nil => simp at h1 h2; exact ⟨[], by simp [← h2], by simp [h1]⟩
    | cons x c1 =>
      simp only [List.cons_append, List.cons.injEq] at h2
      exfalso; apply ha; rw [h1, ← h2.1]; simp

/-- Parsing a text `h?q` whose part `h` has no `?` yields the query `q`. -/
theorem parse_RawQuery_some {h q : GoString} {u : URL}
    (hp : parse (h ++ ch '?' :: q) false = .ok u) (hh : ch '?' ∉ h) : u.RawQuery = q := by
  unfold parse at hp
  split_ifs at hp with h1 h2 h3
  · exfalso
    have hl : lit "*" = [ch '*'] := by decide
    rw [hl] at h3
    cases h with
    | nil => simp at h3; exact absurd h3.1 (by decide)
    | cons x t => simp at h3
  · split at hp
    · cases hp
    · rename_i sr hsr
      obtain ⟨s, r⟩ := sr
      obtain ⟨a, hsplit, ha, -⟩ := getScheme_split hsr
      obtain ⟨h1, hr, hh1⟩ := tail_split hsplit.symm ha
      have hh1n : ch '?' ∉ h1 := by
        intro hm; apply hh; rw [hh1]; exact List.mem_append_right _ hm
      simp only at hp
      have hl : lit "?" = [ch '?'] := by decide
      split_ifs at hp with h4
      · obtain ⟨-, e2, -, -⟩ := parseHier_ok hp rfl
        simp only at e2
        rw [e2]
        -- exactly one `?`, at the end: the query is empty
        have hc : strings.Count r (ch '?') = 1 := h4.2
        rw [hr] at hc
        simp only [strings.Count, List.count_append, List.count_cons_self] at hc
        have h0 : List.count (ch '?') q = 0 := by omega
        have hq : ch '?' ∉ q := List.count_eq_zero.mp h0
        have hs := h4.1
        rw [hl, strings.HasSuffix_singleton, hr] at hs
        cases q with
        | nil => rfl
        | cons y q1 =>
          exfalso
          rw [List.getLast?_append_of_ne_nil _ (by simp),
            List.getLast?_cons_cons] at hs
          exact hq (List.mem_of_getLast?_eq_some hs)
      · obtain ⟨-, e2, -, -⟩ := parseHier_ok hp rfl
        simp only at e2
        rw [e2, hl, hr, strings.Cut_append_of_not_mem h1 q hh1n]

/-- Parsing a text without `?` yields an empty query. -/
theorem parse_RawQuery_none {h : GoString} {u : URL}
    (hp : parse h false = .ok u) (hh : ch '?' ∉ h) : u.RawQuery = [] := by
  unfold parse at hp
  split_ifs at hp with h1 h2 h3
  · cases hp; rfl
  · split at hp
    · cases hp
    · rename_i sr hsr
      obtain ⟨s, r⟩ := sr
      obtain ⟨a, hsplit, ha, -⟩ := getScheme_split hsr
      have hrn : ch '?' ∉ r := by
        intro hm; apply hh; rw [hsplit]; exact List.mem_append_right _ hm
      simp only at hp
      have hl : lit "?" = [ch '?'] := by decide
      split_ifs at hp with h4
      · obtain ⟨-, e2, -, -⟩ := parseHier_ok hp rfl
        simp only at e2
        rw [e2]
      · obtain ⟨-, e2, -, -⟩ := parseHier_ok hp rfl
        simp only at e2
        rw [e2, hl, strings.Cut_of_not_mem r hrn]

end url

/-! ## Lemmas: writing a URL and reading it back -/

namespace url

open encoding

theorem validEncoded_path_noDelim {s : GoString} (h : validEncoded s encodePath = true) :
    ch '?' ∉ s ∧ ch '#' ∉ s := by
  unfold validEncoded at h
  rw [List.all_eq_true] at h
  refine ⟨fun hm => ?_, fun hm => ?_⟩
  · exact absurd (h _ hm) (by decide)
  · exact absurd (h _ hm) (by decide)

theorem escape_noDelim (s : GoString) (mode : encoding)
    (hm : mode = encodeHost ∨ mode = encodeUserPassword ∨ mode = encodePath) :
    ch '?' ∉ escape s mode ∧ ch '#' ∉ escape s mode :=
  ⟨fun h => (escape_no_delim s mode hm _ h).2 rfl, fun h => (escape_no_delim s mode hm _ h).1 rfl⟩

theorem EscapedPath_noDelim (u : URL) : ch '?' ∉ u.EscapedPath ∧ ch '#' ∉ u.EscapedPath := by
  unfold URL.EscapedPath
  split_ifs with h1 h2
  · exact validEncoded_path_noDelim h1.2.1
  · decide
  · exact escape_noDelim _ _ (Or.inr (Or.inr rfl))

theorem nd_append {q f : Byte} {a b : GoString} (ha : q ∉ a ∧ f ∉ a) (hb : q ∉ b ∧ f ∉ b) :
    q ∉ a ++ b ∧ f ∉ a ++ b := by
  simp only [List.mem_append, not_or]
  exact ⟨⟨ha.1, hb.1⟩, ⟨ha.2, hb.2⟩⟩

theorem nd_ite {q f : Byte} {c : Prop} [Decidable c] {a b : GoString}
    (ha : q ∉ a ∧ f ∉ a) (hb : q ∉ b ∧ f ∉ b) :
    q ∉ (if c then a else b) ∧ f ∉ (if c then a else b) := by
  split_ifs
  · exact ha
  · exact hb

theorem nd_nil {q f : Byte} : q ∉ ([] : GoString) ∧ f ∉ ([] : GoString) := by
  simp

theorem Userinfo_String_noDelim (ui : Userinfo) : ch '?' ∉ ui.String ∧ ch '#' ∉ ui.String := by
  unfold Userinfo.String
  have h1 := escape_noDelim ui.username encodeUserPassword (Or.inr (Or.inl rfl))
  have h2 := escape_noDelim ui.password encodeUserPassword (Or.inr (Or.inl rfl))
  have h3 : ch '?' ∉ lit ":" ∧ ch '#' ∉ lit ":" := by decide
  exact nd_append h1 (nd_ite (nd_append h3 h2) nd_nil)

/-- The text written before the query has no `?` and no `#`, when the
scheme and the opaque part have none. -/
theorem stringHier_noDelim (u : URL)
    (hS : ∀ x ∈ u.Scheme, x ≠ ch '?' ∧ x ≠ ch '#')
    (hO : ∀ x ∈ u.Opaque, x ≠ ch '?' ∧ x ≠ ch '#') :
    ch '?' ∉ u.stringHier ∧ ch '#' ∉ u.stringHier := by
  have hS1 : ch '?' ∉ u.Scheme ∧ ch '#' ∉ u.Scheme :=
    ⟨fun h => (hS _ h).1 rfl, fun h => (hS _ h).2 rfl⟩
  have hO1 : ch '?' ∉ u.Opaque ∧ ch '#' ∉ u.Opaque :=
    ⟨fun h => (hO _ h).1 rfl, fun h => (hO _ h).2 rfl⟩
  have hP := EscapedPath_noDelim u
  have hH := escape_noDelim u.Host encodeHost (Or.inl rfl)
  have l1 : ch '?' ∉ lit ":" ∧ ch '#' ∉ lit ":" := by decide
  have l2 : ch '?' ∉ lit "//" ∧ ch '#' ∉ lit "//" := by decide
  have l3 : ch '?' ∉ lit "@" ∧ ch '#' ∉ lit "@" := by decide
  have l4 : ch '?' ∉ lit "/" ∧ ch '#' ∉ lit "/" := by decide
  have l5 : ch '?' ∉ lit "./" ∧ ch '#' ∉ lit "./" := by decide
  have b0 : ch '?' ∉ (if u.Scheme ≠ [] then u.Scheme ++ lit ":" else []) ∧
      ch '#' ∉ (if u.Scheme ≠ [] then u.Scheme ++ lit ":" else []) :=
    nd_ite (nd_append hS1 l1) nd_nil
  unfold URL.stringHier
  generalize (if u.Scheme ≠ [] then u.Scheme ++ lit ":" else []) = buf0 at b0 ⊢
  simp only
  refine nd_ite (nd_append b0 hO1) ?_
  have b1 : ch '?' ∉ (if u.Host ≠ [] ∨ u.Path ≠ [] ∨ u.User ≠ none then buf0 ++ lit "//"
        else buf0) ∧
      ch '#' ∉ (if u.Host ≠ [] ∨ u.Path ≠ [] ∨ u.User ≠ none then buf0 ++ lit "//"
        else buf0) := nd_ite (nd_append b0 l2) b0
  generalize (if u.Host ≠ [] ∨ u.Path ≠ [] ∨ u.User ≠ none then buf0 ++ lit "//"
        else buf0) = buf1 at b1 ⊢
  have b2 : ch '?' ∉ (match u.User with
        | some ui => buf1 ++ ui.String ++ lit "@"
        | none => buf1) ∧
      ch '#' ∉ (match u.User with
        | some ui => buf1 ++ ui.String ++ lit "@"
        | none => buf1) := by
    cases u.User with
    | none => exact b1
    | some ui => exact nd_append (nd_append b1 (Userinfo_String_noDelim ui)) l3
  generalize (match u.User with
        | some ui => buf1 ++ ui.String ++ lit "@"
        | none => buf1) = buf2 at b2 ⊢
  have b3 := nd_ite (c := u.Scheme ≠ [] ∨ u.Host ≠ [] ∨ u.User ≠ none)
    (nd_ite (c := u.OmitHost = true ∧ u.Host = [] ∧ u.User = none) b0
      (nd_ite (c := u.Host ≠ []) (nd_append b2 hH) b2)) b0
  generalize (if u.Scheme ≠ [] ∨ u.Host ≠ [] ∨ u.User ≠ none then
      if u.OmitHost = true ∧ u.Host = [] ∧ u.User = none then buf0
      else if u.Host ≠ [] then buf2 ++ escape u.Host encodeHost else buf2
    else buf0) = buf3 at b3 ⊢
  exact nd_append (nd_ite (nd_append (nd_ite (nd_append b3 l4) b3) l5)
    (nd_ite (nd_append b3 l4) b3)) hP


/-- Go `Parse` on a text whose part before the fragment is `buf`: the query
is the one that `parse` finds in `buf`. -/
theorem Parse_RawQuery_of_parse {buf F : GoString} {u1 : URL}
    (hb : ch '#' ∉ buf) (hF : F = [] ∨ ∃ ef, F = ch '#' :: ef)
    (h : Parse (buf ++ F) = .ok u1) :
    ∃ url, parse buf false = .ok url ∧ u1.RawQuery = url.RawQuery := by
  have hl : lit "#" = [ch '#'] := by decide
  have hcut : (strings.Cut (buf ++ F) [ch '#']).1 = buf := by
    rcases hF with rfl | ⟨ef, rfl⟩
    · rw [List.append_nil, strings.Cut_of_not_mem buf hb]
    · rw [strings.Cut_append_of_not_mem buf ef hb]
  unfold Parse at h
  rw [hl] at h
  simp only [hcut] at h
  split at h
  · cases h
  · rename_i url hurl
    refine ⟨url, hurl, ?_⟩
    split_ifs at h
    · cases h; rfl
    · split at h
      · cases h
      · rename_i u2 hu2
        cases h
        obtain ⟨f, r, rfl⟩ := setFragment_ok hu2
        rfl

/-- Writing a URL and parsing the text gives back its query, when scheme
and opaque part have no `?` and no `#` and the query has no `#`. -/
theorem Parse_String_RawQuery (u u1 : URL)
    (hS : ∀ x ∈ u.Scheme, x ≠ ch '?' ∧ x ≠ ch '#')
    (hO : ∀ x ∈ u.Opaque, x ≠ ch '?' ∧ x ≠ ch '#')
    (hq : ch '#' ∉ u.RawQuery)
    (h : Parse u.String = .ok u1) : u1.RawQuery = u.RawQuery := by
  obtain ⟨hh1, hh2⟩ := stringHier_noDelim u hS hO
  have hl : lit "#" = [ch '#'] := by decide
  have hl2 : lit "?" = [ch '?'] := by decide
  unfold URL.String at h
  simp only [hl, hl2] at h
  have hF : (if u.Fragment ≠ [] then [ch '#'] ++ u.EscapedFragment else []) = [] ∨
      ∃ ef, (if u.Fragment ≠ [] then [ch '#'] ++ u.EscapedFragment else []) = ch '#' :: ef := by
    split_ifs
    · exact Or.inr ⟨_, rfl⟩
    · exact Or.inl rfl
  by_cases hQ : u.ForceQuery = true ∨ u.RawQuery ≠ []
  · have hb : ch '#' ∉ u.stringHier ++ [ch '?'] ++ u.RawQuery := by
      simp only [List.mem_append, List.mem_singleton, not_or]
      exact ⟨⟨hh2, by decide⟩, hq⟩
    have h2 : Parse ((u.stringHier ++ [ch '?'] ++ u.RawQuery) ++
        (if u.Fragment ≠ [] then [ch '#'] ++ u.EscapedFragment else [])) = .ok u1 := by
      rw [← h]
      simp only [hQ, if_true]
      split_ifs <;> simp
    obtain ⟨url, hp, he⟩ := Parse_RawQuery_of_parse hb hF h2
    rw [he]
    have hp2 : parse (u.stringHier ++ ch '?' :: u.RawQuery) false = .ok url := by
      rw [← hp]; simp
    exact parse_RawQuery_some hp2 hh1
  · have h2 : Parse (u.stringHier ++
        (if u.Fragment ≠ [] then [ch '#'] ++ u.EscapedFragment else [])) = .ok u1 := by
      rw [← h]
      simp only [hQ, if_false]
      split_ifs <;> simp
    obtain ⟨url, hp, he⟩ := Parse_RawQuery_of_parse hh2 hF h2
    rw [he, parse_RawQuery_none hp hh1]
    simp only [not_or, ne_eq, not_not] at hQ
    exact hQ.2.symm

end url

/-! ## Lemmas: encoding a query and parsing it back -/

namespace url

open encoding

set_option maxRecDepth 100000 in
theorem hex_roundtrip : ∀ c : Byte,
    ishex (upperhex.getD (c.val / 16) 0) = true ∧ ishex (upperhex.getD (c.val % 16) 0) = true ∧
      unhex (upperhex.getD (c.val / 16) 0) * 16 + unhex (upperhex.getD (c.val % 16) 0) = c := by
  decide

set_option maxRecDepth 100000 in
theorem unescaped_query_byte : ∀ c : Byte,
    shouldEscape c encodeQueryComponent = false → c ≠ ch '%' ∧ c ≠ ch '+' := by
  decide

theorem unescapeCheck_pct (a b : Byte) (rest : GoString)
    (ha : ishex a = true) (hb : ishex b = true) :
    unescapeCheck (ch '%' :: a :: b :: rest) encodeQueryComponent =
      unescapeCheck rest encodeQueryComponent := by
  conv_lhs => unfold unescapeCheck
  simp [ha, hb]

theorem unescapeCheck_cons_ne (c : Byte) (t : GoString) (h : c ≠ ch '%') :
    unescapeCheck (c :: t) encodeQueryComponent = unescapeCheck t encodeQueryComponent := by
  conv_lhs => unfold unescapeCheck
  simp [h]

theorem unescapeBuild_pct (a b : Byte) (rest : GoString) (mode : encoding) :
    unescapeBuild (ch '%' :: a :: b :: rest) mode =
      (unhex a * 16 + unhex b) :: unescapeBuild rest mode := by
  conv_lhs => unfold unescapeBuild
  simp

theorem unescapeBuild_plus (t : GoString) :
    unescapeBuild (ch '+' :: t) encodeQueryComponent =
      ch ' ' :: unescapeBuild t encodeQueryComponent := by
  conv_lhs => unfold unescapeBuild
  have hp : ch '+' ≠ ch '%' := by decide
  simp [hp]

theorem unescapeBuild_cons_ne (c : Byte) (t : GoString) (mode : encoding)
    (h1 : c ≠ ch '%') (h2 : c ≠ ch '+') :
    unescapeBuild (c :: t) mode = c :: unescapeBuild t mode := by
  conv_lhs => unfold unescapeBuild
  simp [h1, h2]

/-- Go `QueryUnescape` undoes `QueryEscape`. -/
theorem QueryUnescape_QueryEscape (s : GoString) : QueryUnescape (QueryEscape s) = .ok s := by
  have key : unescapeCheck (escape s encodeQueryComponent) encodeQueryComponent = .ok () ∧
      unescapeBuild (escape s encodeQueryComponent) encodeQueryComponent = s := by
    induction s with
    | nil => simp [escape, unescapeCheck, unescapeBuild]
    | cons c t ih =>
      have hp : ch '+' ≠ ch '%' := by decide
      rw [escape]
      split_ifs with h1 h2
      · rw [unescapeCheck_cons_ne _ _ hp, unescapeBuild_plus, ih.1, ih.2, h1.1]
        exact ⟨rfl, rfl⟩
      · obtain ⟨x1, x2, x3⟩ := hex_roundtrip c
        rw [unescapeCheck_pct _ _ _ x1 x2, unescapeBuild_pct, x3, ih.1, ih.2]
        exact ⟨rfl, rfl⟩
      · have hc := unescaped_query_byte c (by simpa using h2)
        rw [unescapeCheck_cons_ne _ _ hc.1, unescapeBuild_cons_ne _ _ _ hc.1 hc.2, ih.1, ih.2]
        exact ⟨rfl, rfl⟩
  simp [QueryUnescape, QueryEscape, unescape, key.1, key.2]


theorem pairText_no_delim (p : GoString × GoString) :
    ch '&' ∉ pairText p ∧ ch ';' ∉ pairText p ∧ ch '#' ∉ pairText p := by
  have h1 := QueryEscape_no_delim p.1
  have h2 := QueryEscape_no_delim p.2
  have e1 : ch '&' ≠ ch '=' := by decide
  have e2 : ch ';' ≠ ch '=' := by decide
  have e3 : ch '#' ≠ ch '=' := by decide
  unfold pairText
  simp only [List.mem_append, List.mem_cons, not_or]
  exact ⟨⟨fun h => (h1 _ h).1 rfl, e1, fun h => (h2 _ h).1 rfl⟩,
    ⟨fun h => (h1 _ h).2.2.2.1 rfl, e2, fun h => (h2 _ h).2.2.2.1 rfl⟩,
    ⟨fun h => (h1 _ h).2.2.1 rfl, e3, fun h => (h2 _ h).2.2.1 rfl⟩⟩

theorem pairText_ne_nil (p : GoString × GoString) : pairText p ≠ [] := by
  unfold pairText; simp

/-- The loop body of `parseQuery` on the text of one pair adds that pair. -/
theorem parseQueryPiece_pairText (acc : Values × Option GoError) (p : GoString × GoString) :
    parseQueryPiece acc (pairText p) = (acc.1.Add p.1 p.2, acc.2) := by
  have hl1 : lit ";" = [ch ';'] := by decide
  have hl2 : lit "=" = [ch '='] := by decide
  have hc : strings.Contains (pairText p) (lit ";") = false := by
    rw [hl1, strings.Contains, strings.Index,
      strings.Cut_of_not_mem (pairText p) (pairText_no_delim p).2.1]
    rfl
  have hcut : strings.Cut (pairText p) (lit "=") = (QueryEscape p.1, QueryEscape p.2, true) := by
    rw [hl2, pairText]
    exact strings.Cut_append_of_not_mem _ _ (fun h => (QueryEscape_no_delim p.1 _ h).2.1 rfl)
  unfold parseQueryPiece
  simp [hc, pairText_ne_nil, hcut, QueryUnescape_QueryEscape]

namespace Values

theorem Encode_eq_foldl_pairs (v : Values) :
    v.Encode = v.pairs.foldl (fun buf p => encodePair (QueryEscape p.1) buf p.2) [] := by
  unfold Encode pairs
  generalize v.sortedKeys = ks
  generalize ([] : GoString) = buf
  induction ks generalizing buf with
  | nil => rfl
  | cons k ks ih =>
    simp only [List.foldl_cons, List.flatMap_cons, List.foldl_append, List.foldl_map]
    exact ih _

theorem foldl_pairs_of_ne_nil (ps : List (GoString × GoString)) :
    ∀ buf : GoString, buf ≠ [] →
      ps.foldl (fun buf p => encodePair (QueryEscape p.1) buf p.2) buf =
        buf ++ (ps.map (fun p => ch '&' :: pairText p)).flatten := by
  induction ps with
  | nil => intro buf _; simp
  | cons p ps ih =>
    intro buf hb
    have hlen : buf.length > 0 := List.length_pos.mpr hb
    have hstep : encodePair (QueryEscape p.1) buf p.2 = buf ++ ch '&' :: pairText p := by
      simp [encodePair, hlen, pairText]
    rw [List.foldl_cons, hstep, ih _ (by simp)]
    simp

theorem intercalate_cons (sep a : GoString) (l : List GoString) :
    sep.intercalate (a :: l) = a ++ (l.map (fun x => sep ++ x)).flatten := by
  induction l generalizing a with
  | nil => simp [List.intercalate]
  | cons b l ih =>
    have := ih b
    simp only [List.intercalate] at this ⊢
    simp [List.intersperse, this]

/-- Go `Encode` writes the pair texts with `&` between them. -/
theorem Encode_eq_intercalate (v : Values) :
    v.Encode = [ch '&'].intercalate (v.pairs.map pairText) := by
  rw [Encode_eq_foldl_pairs]
  cases hp : v.pairs with
  | nil => rfl
  | cons p ps =>
    have h0 : encodePair (QueryEscape p.1) [] p.2 = pairText p := by
      simp [encodePair, pairText]
    rw [List.foldl_cons, h0, foldl_pairs_of_ne_nil ps _ (pairText_ne_nil p), List.map_cons,
      intercalate_cons]
    simp [List.map_map, Function.comp_def]

/-- An encoded query has no `#`. -/
theorem Encode_no_hash (v : Values) : ch '#' ∉ v.Encode := by
  rw [Encode_eq_intercalate]
  generalize v.pairs = ps
  cases ps with
  | nil => simp [List.intercalate]
  | cons p ps =>
    rw [List.map_cons, intercalate_cons]
    simp only [List.mem_append, List.mem_flatten, List.mem_map, not_or, not_exists, not_and]
    refine ⟨(pairText_no_delim p).2.2, ?_⟩
    rintro l ⟨x, ⟨q, -, rfl⟩, rfl⟩ hm
    simp only [List.singleton_append, List.mem_cons] at hm
    rcases hm with hm | hm
    · exact absurd hm (by decide)
    · exact (pairText_no_delim q).2.2 hm

theorem foldl_parseQueryPiece (ps : List (GoString × GoString)) :
    ∀ acc : Values × Option GoError,
      (ps.map pairText).foldl parseQueryPiece acc =
        (ps.foldl (fun m p => m.Add p.1 p.2) acc.1, acc.2) := by
  induction ps with
  | nil => intro acc; rfl
  | cons p ps ih =>
    intro acc
    rw [List.map_cons, List.foldl_cons, parseQueryPiece_pairText, ih]
    rfl

/-- Parsing an encoded query adds its pairs one after the other. -/
theorem ParseQuery_Encode (v : Values) :
    ParseQuery v.Encode = (v.pairs.foldl (fun m p => m.Add p.1 p.2) ∅, none) := by
  rw [Encode_eq_intercalate, ParseQuery]
  cases hp : v.pairs with
  | nil => rfl
  | cons p ps =>
    rw [← hp, List.splitOn_intercalate _ (ch '&') _ (by simp [hp]), foldl_parseQueryPiece]
    intro l hl
    simp only [List.mem_map] at hl
    obtain ⟨q, -, rfl⟩ := hl
    exact (pairText_no_delim q).1

end Values

end url

namespace url

namespace Values

theorem index_empty (k : GoString) : (∅ : Values).index k = [] := by
  simp [index]

theorem index_foldl_Add_pairs (k : GoString) (ps : List (GoString × GoString)) :
    ∀ m : Values, (ps.foldl (fun m p => m.Add p.1 p.2) m).index k =
      m.index k ++ (ps.filter (fun p => decide (p.1 = k))).map Prod.snd := by
  induction ps with
  | nil => intro m; simp
  | cons p ps ih =>
    intro m
    rw [List.foldl_cons, ih]
    by_cases hk : p.1 = k
    · subst hk
      simp [index_Add_self]
    · rw [index_Add_ne _ _ (Ne.symm hk)]
      simp [hk]

theorem filter_pairs (v : Values) (k : GoString) (ks : List GoString) (hnd : ks.Nodup) :
    ((ks.flatMap (fun k1 => (v.index k1).map (fun x => (k1, x)))).filter
        (fun p => decide (p.1 = k))).map Prod.snd = if k ∈ ks then v.index k else [] := by
  induction ks with
  | nil => simp
  | cons a ks ih =>
    rw [List.nodup_cons] at hnd
    rw [List.flatMap_cons, List.filter_append, List.map_append, ih hnd.2]
    by_cases hk : a = k
    · subst hk
      simp [hnd.1, List.filter_map, Function.comp_def]
    · have h1 : ((v.index a).map (fun x => (a, x))).filter (fun p => decide (p.1 = k)) = [] := by
        simp [List.filter_eq_nil_iff, hk]
      simp [h1, Ne.symm hk]

theorem sortedKeys_perm (v : Values) : v.sortedKeys.Perm v.keys := by
  unfold sortedKeys
  exact List.perm_insertionSort _ _

/-- The values that `Encode` writes under a key are the values of that key. -/
theorem filter_pairs_eq_index (v : Values) (k : GoString) :
    (v.pairs.filter (fun p => decide (p.1 = k))).map Prod.snd = v.index k := by
  unfold pairs
  rw [filter_pairs v k v.sortedKeys ((sortedKeys_perm v).nodup_iff.mpr v.keys_nodup)]
  split_ifs with h
  · rfl
  · have hk : k ∉ v.keys := fun hm => h ((sortedKeys_perm v).mem_iff.mpr hm)
    have : v.lookup k = none := AList.lookup_eq_none.mpr hk
    simp [index, this]

/-- Encoding a collector and parsing the text gives back, under every key,
the values of that key in their order. -/
theorem index_ParseQuery_Encode (v : Values) (k : GoString) :
    (ParseQuery v.Encode).1.index k = v.index k := by
  rw [ParseQuery_Encode, index_foldl_Add_pairs, index_empty, filter_pairs_eq_index]
  rfl

end Values

theorem JoinPath_fields (u : URL) (elem : List GoString) :
    (u.JoinPath elem).Scheme = u.Scheme ∧ (u.JoinPath elem).Opaque = u.Opaque ∧
      (u.JoinPath elem).RawQuery = u.RawQuery := by
  unfold URL.JoinPath
  simp only
  split
  · rename_i url hurl
    obtain ⟨p, r, rfl⟩ := setPath_ok hurl
    exact ⟨rfl, rfl, rfl⟩
  · exact ⟨rfl, rfl, rfl⟩

end url

/-! ## Lemmas: the request that `newRequest` builds -/

namespace alldebrid

/-- The request that `newRequest` builds for a `Ctx`: its URL is the parse of
the text of the joined URL with the encoded collector as query; body, method,
context and headers are as the code sets them. -/
theorem newRequest_shape (c : APIClient) (method path : GoString) (rc : Ctx)
    (req : http.Request)
    (h : c.newRequest method path (some rc.toRequestContext) = .ok req) :
    (∃ u0, url.Parse (url.URL.String { c.BaseURL.JoinPath [path] with
          RawQuery := (rc.getBody method
            ((c.BaseURL.JoinPath [path]).Query.Set (lit "agent") c.agent)).2.Encode }) = .ok u0 ∧
        req.URL = { u0 with Host := http.removeEmptyPort u0.Host }) ∧
      req.Body =
        (rc.getBody method
          ((c.BaseURL.JoinPath [path]).Query.Set (lit "agent") c.agent)).1.1 ∧
      req.Method = (if method = [] then lit "GET" else method) ∧
      req.ctx = rc.getContext ∧
      req.Header =
        (if (rc.getBody method
            ((c.BaseURL.JoinPath [path]).Query.Set (lit "agent") c.agent)).1.2.length > 0
         then
          (((∅ : http.Header).Set (lit "Authorization")
              (lit "Bearer " ++ (if rc.APIKey.length > 0 then rc.APIKey else c.apiKey))).Add
            (lit "User-Agent") c.agent).Add (lit "Content-Type")
            (rc.getBody method
              ((c.BaseURL.JoinPath [path]).Query.Set (lit "agent") c.agent)).1.2
         else
          ((∅ : http.Header).Set (lit "Authorization")
              (lit "Bearer " ++ (if rc.APIKey.length > 0 then rc.APIKey else c.apiKey))).Add
            (lit "User-Agent") c.agent) := by
  unfold APIClient.newRequest at h
  simp only [Ctx.toRequestContext] at h
  generalize hbq : rc.getBody method
    ((c.BaseURL.JoinPath [path]).Query.Set (lit "agent") c.agent) = bq at h ⊢
  split at h
  · cases h
  · rename_i req0 hreq0
    unfold http.NewRequestWithContext at hreq0
    simp only at hreq0
    split_ifs at hreq0 with hv
    all_goals
      split at hreq0
      · cases hreq0
      · rename_i u0 hu0
        cases hreq0
        split_ifs at h with hct
        · cases h
          exact ⟨⟨u0, hu0, rfl⟩, by simp [Ctx.setAuthHeader, hct, hv]⟩
        · cases h
          exact ⟨⟨u0, hu0, rfl⟩, by simp [Ctx.setAuthHeader, hct, hv]⟩

/-- The query of the built request is the encoded collector, for a client
whose base URL is a parsed URL. -/
theorem newRequest_RawQuery (c : APIClient) (baseURL : GoString)
    (hc : url.Parse baseURL = .ok c.BaseURL) (method path : GoString) (rc : Ctx)
    (req : http.Request)
    (h : c.newRequest method path (some rc.toRequestContext) = .ok req) :
    req.URL.RawQuery =
      (rc.getBody method ((c.BaseURL.Query).Set (lit "agent") c.agent)).2.Encode := by
  obtain ⟨⟨u0, hu0, hurl⟩, -⟩ := newRequest_shape c method path rc req h
  have hf := url.JoinPath_fields c.BaseURL [path]
  have hnd := url.Parse_ok_noDelim hc
  have hq := url.Parse_String_RawQuery _ u0
    (by simp only [hf.1]; exact hnd.1) (by simp only [hf.2.1]; exact hnd.2)
    (url.Values.Encode_no_hash _) hu0
  have hQ : (c.BaseURL.JoinPath [path]).Query = c.BaseURL.Query := by
    simp only [url.URL.Query, hf.2.2]
  rw [hurl]
  simp only at hq ⊢
  rw [hq, hQ]

/-- The parsed query of the built request holds, under every key, the values
that the collector holds under it. -/
theorem newRequest_Query_index (c : APIClient) (baseURL : GoString)
    (hc : url.Parse baseURL = .ok c.BaseURL) (method path : GoString) (rc : Ctx)
    (req : http.Request)
    (h : c.newRequest method path (some rc.toRequestContext) = .ok req) (k : GoString) :
    req.URL.Query.index k =
      (rc.getBody method ((c.BaseURL.Query).Set (lit "agent") c.agent)).2.index k := by
  rw [url.URL.Query, newRequest_RawQuery c baseURL hc method path rc req h,
    url.Values.index_ParseQuery_Encode]

end alldebrid

/-! ## The claims -/

namespace alldebrid

theorem header_values_contentType (auth agent ct : GoString) :
    http.Header.Values ((((∅ : http.Header).Set (lit "Authorization") auth).Add
      (lit "User-Agent") agent).Add (lit "Content-Type") ct) (lit "Content-Type") = [ct] := by
  have h1 : http.CanonicalMIMEHeaderKey (lit "Content-Type") = lit "Content-Type" := by decide
  unfold http.Header.Values http.Header.Add
  rw [h1, AList.lookup_insert]
  rfl

/-- C1: for a non-nil form and a method other than GET and HEAD, `getBody`
leaves the query collector as it is and returns the encoded form as body with
the content type `application/x-www-form-urlencoded`; the request that
`newRequest` then builds (for a client whose base URL is a parsed URL) has as
query the base URL's query with `agent` set and nothing of the form, the
encoded form as body and that content type as its only `Content-Type`. -/
theorem getBody_other_method (rc : Ctx) (form : url.Values) (method : GoString)
    (query : url.Values) (hform : rc.Form = some form)
    (hget : method ≠ lit "GET") (hhead : method ≠ lit "HEAD") :
    rc.getBody method query =
        ((some form.Encode, lit "application/x-www-form-urlencoded"), query) ∧
      ∀ (c : APIClient) (baseURL path : GoString) (req : http.Request),
        url.Parse baseURL = .ok c.BaseURL →
        c.newRequest method path (some rc.toRequestContext) = .ok req →
          req.URL.RawQuery = (c.BaseURL.Query.Set (lit "agent") c.agent).Encode ∧
          (∀ k, req.URL.Query.index k = (c.BaseURL.Query.Set (lit "agent") c.agent).index k) ∧
          req.Body = some form.Encode ∧
          req.Header.Values (lit "Content-Type") = [lit "application/x-www-form-urlencoded"] := by
  have hb : ∀ q, rc.getBody method q =
      ((some form.Encode, lit "application/x-www-form-urlencoded"), q) := by
    intro q
    have hm : ¬(method = MethodHead ∨ method = MethodGet) := by
      rintro (h | h)
      · exact hhead h
      · exact hget h
    simp [Ctx.getBody, hform, hm]
  refine ⟨hb query, ?_⟩
  intro c baseURL path req hc hreq
  have hq := newRequest_RawQuery c baseURL hc method path rc req hreq
  have hi := newRequest_Query_index c baseURL hc method path rc req hreq
  obtain ⟨-, hbody, -, -, hhdr⟩ := newRequest_shape c method path rc req hreq
  rw [hb] at hq hi hbody hhdr
  refine ⟨hq, hi, hbody, ?_⟩
  have hl : (lit "application/x-www-form-urlencoded").length > 0 := by decide
  simp only [hl, if_true] at hhdr
  rw [hhdr, header_values_contentType]

/-- C1, at the example of the spec: `newRequest("POST", "/magnet/upload",
Ctx{Form: {"magnets": ["m1"]}})` on the default client has the body
`magnets=m1`, the content type `application/x-www-form-urlencoded` and the
query string `agent=stremthru`. -/
theorem getBody_other_method_witness :
    ((({ Form := some formMagnets } : Ctx).Form = some formMagnets ∧
      lit "POST" ≠ lit "GET" ∧ lit "POST" ≠ lit "HEAD") ∧
     (url.Parse (lit "https://api.alldebrid.com") = .ok defaultClient.BaseURL ∧
      defaultClient.newRequest (lit "POST") (lit "/magnet/upload")
        (some (Ctx.toRequestContext { Form := some formMagnets })) = .ok requestMagnets)) ∧
    (requestMagnets.URL.RawQuery = lit "agent=stremthru" ∧
      requestMagnets.Body = some (lit "magnets=m1") ∧
      requestMagnets.Header.Values (lit "Content-Type") =
        [lit "application/x-www-form-urlencoded"]) ∧
    (requestMagnets.URL.RawQuery =
        (defaultClient.BaseURL.Query.Set (lit "agent") defaultClient.agent).Encode ∧
      (∀ k, requestMagnets.URL.Query.index k =
        (defaultClient.BaseURL.Query.Set (lit "agent") defaultClient.agent).index k) ∧
      requestMagnets.Body = some formMagnets.Encode ∧
      requestMagnets.Header.Values (lit "Content-Type") =
        [lit "application/x-www-form-urlencoded"]) :=
  ⟨⟨⟨rfl, by decide, by decide⟩, by decide, by decide⟩, by decide,
    (getBody_other_method { Form := some formMagnets } formMagnets (lit "POST") ∅ rfl
      (by decide) (by decide)).2 defaultClient (lit "https://api.alldebrid.com")
      (lit "/magnet/upload") requestMagnets (by decide) (by decide)⟩


/-- C3, as the spec states it, fails: the query string of the request built by
`newRequest("GET", "/user", Ctx{Form: {"key": ["a", "b"]}})` on the default
client does not contain the text `key=a&key=b&agent=stremthru`. -/
theorem newRequest_get_example_order :
    ¬ ∃ req, defaultClient.newRequest (lit "GET") (lit "/user")
        (some (Ctx.toRequestContext { Form := some formKeyAB })) = .ok req ∧
      lit "key=a&key=b&agent=stremthru" <:+: req.URL.RawQuery ∧ req.Body = none := by
  rintro ⟨req, h1, h2, -⟩
  have h : defaultClient.newRequest (lit "GET") (lit "/user")
      (some (Ctx.toRequestContext { Form := some formKeyAB })) = .ok requestKeyAB := by decide
  rw [h] at h1
  cases h1
  revert h2
  decide

/-- C3, amended: that request is built, its query string is exactly
`agent=stremthru&key=a&key=b` (the keys in increasing order, the two values of
`key` in their order), and it has no body. -/
theorem newRequest_get_example :
    ∃ req, defaultClient.newRequest (lit "GET") (lit "/user")
        (some (Ctx.toRequestContext { Form := some formKeyAB })) = .ok req ∧
      req.URL.RawQuery = lit "agent=stremthru&key=a&key=b" ∧
      lit "key=a&key=b" <:+: req.URL.RawQuery ∧
      lit "agent=stremthru" <:+: req.URL.RawQuery ∧
      req.Body = none :=
  ⟨requestKeyAB, by decide, by decide, by decide, by decide, rfl⟩


/-- The values under a key in the collector after `getBody`. -/
theorem getBody_collector_index (rc : Ctx) (method : GoString) (q : url.Values)
    (k : GoString) :
    (rc.getBody method q).2.index k = q.index k ++
      (match rc.Form with
        | some form => if method = lit "HEAD" ∨ method = lit "GET" then form.index k else []
        | none => []) := by
  unfold Ctx.getBody
  cases hF : rc.Form with
  | none => simp
  | some form =>
    simp only [MethodHead, MethodGet]
    split_ifs with hm
    · simp only
      rw [index_foldl_entries k form.entries q form.nodupKeys]
      rfl
    · simp

theorem newRequest_nil (c : APIClient) (method path : GoString) :
    c.newRequest method path none = c.newRequest method path (some (Ctx.toRequestContext {})) :=
  rfl

theorem Has_of_index_cons {v : url.Values} {k x : GoString} {rest : List GoString}
    (h : v.index k = x :: rest) : v.Has k = true ∧ v.Get k = x := by
  unfold url.Values.Has url.Values.Get
  rw [h]
  refine ⟨?_, rfl⟩
  unfold url.Values.index at h
  cases hl : v.lookup k with
  | none => rw [hl] at h; simp at h
  | some l => rfl

/-- C4: the query of every request that `newRequest` builds (for a client whose
base URL is a parsed URL, any method and path, a `Ctx` or nil as context) has
the key `agent`, and the first value under it is the agent of the client: an
`agent` parameter of the base URL is replaced, and the values that the form has
under `agent` come after it, and only for GET and HEAD. -/
theorem newRequest_agent_first (c : APIClient) (baseURL method path : GoString)
    (params : Option Ctx) (req : http.Request)
    (hc : url.Parse baseURL = .ok c.BaseURL)
    (h : c.newRequest method path (params.map Ctx.toRequestContext) = .ok req) :
    req.URL.Query.Has (lit "agent") = true ∧
      req.URL.Query.Get (lit "agent") = c.agent ∧
      req.URL.Query.index (lit "agent") = c.agent ::
        (match params.bind (fun rc => rc.Form) with
          | some form =>
            if method = lit "HEAD" ∨ method = lit "GET" then form.index (lit "agent") else []
          | none => []) := by
  have key : ∀ rc : Ctx, c.newRequest method path (some rc.toRequestContext) = .ok req →
      req.URL.Query.index (lit "agent") = c.agent ::
        (match rc.Form with
          | some form =>
            if method = lit "HEAD" ∨ method = lit "GET" then form.index (lit "agent") else []
          | none => []) := by
    intro rc hreq
    rw [newRequest_Query_index c baseURL hc method path rc req hreq,
      getBody_collector_index, url.Values.index_Set_self]
    rfl
  have hidx : req.URL.Query.index (lit "agent") = c.agent ::
        (match params.bind (fun rc => rc.Form) with
          | some form =>
            if method = lit "HEAD" ∨ method = lit "GET" then form.index (lit "agent") else []
          | none => []) := by
    cases params with
    | none => exact key {} h
    | some rc => exact key rc h
  exact ⟨(Has_of_index_cons hidx).1, (Has_of_index_cons hidx).2, hidx⟩


/-- C4, at a client whose base URL already has `agent=old`, with a form that
has the key `agent` too, on GET. -/
theorem newRequest_agent_first_witness :
    (url.Parse (lit "https://api.alldebrid.com/v4?agent=old&x=1") = .ok clientWithQuery.BaseURL ∧
      clientWithQuery.newRequest (lit "GET") (lit "/user")
        ((some ctxAgent).map Ctx.toRequestContext) = .ok requestAgent) ∧
    (requestAgent.URL.Query.Has (lit "agent") = true ∧
      requestAgent.URL.Query.Get (lit "agent") = clientWithQuery.agent ∧
      requestAgent.URL.Query.index (lit "agent") = clientWithQuery.agent ::
        (match (some ctxAgent).bind (fun rc => rc.Form) with
          | some form =>
            if lit "GET" = lit "HEAD" ∨ lit "GET" = lit "GET" then form.index (lit "agent")
            else []
          | none => [])) :=
  ⟨⟨by decide, by decide⟩,
    newRequest_agent_first clientWithQuery (lit "https://api.alldebrid.com/v4?agent=old&x=1")
      (lit "GET") (lit "/user") (some ctxAgent) requestAgent (by decide) (by decide)⟩

theorem header_values_authorization (auth agent ct : GoString) :
    http.Header.Values ((((∅ : http.Header).Set (lit "Authorization") auth).Add
        (lit "User-Agent") agent).Add (lit "Content-Type") ct) (lit "Authorization") = [auth] ∧
      http.Header.Values (((∅ : http.Header).Set (lit "Authorization") auth).Add
        (lit "User-Agent") agent) (lit "Authorization") = [auth] := by
  have h1 : http.CanonicalMIMEHeaderKey (lit "Content-Type") = lit "Content-Type" := by decide
  have h2 : http.CanonicalMIMEHeaderKey (lit "User-Agent") = lit "User-Agent" := by decide
  have h3 : http.CanonicalMIMEHeaderKey (lit "Authorization") = lit "Authorization" := by decide
  have n1 : lit "Authorization" ≠ lit "Content-Type" := by decide
  have n2 : lit "Authorization" ≠ lit "User-Agent" := by decide
  unfold http.Header.Values http.Header.Add http.Header.Values http.Header.Set
  rw [h1, h2, h3]
  constructor
  · rw [AList.lookup_insert_ne n1, AList.lookup_insert_ne n2, AList.lookup_insert]
    rfl
  · rw [AList.lookup_insert_ne n2, AList.lookup_insert]
    rfl

/-- C5: the request that `newRequest` builds has exactly one `Authorization`
value: `Bearer ` followed by the key of the context when that is non-empty,
and by the key of the client otherwise (also for a nil context); and
`setAuthHeader` replaces whatever was under `Authorization` before. -/
theorem newRequest_authorization (c : APIClient) (method path : GoString)
    (params : Option Ctx) (req : http.Request)
    (h : c.newRequest method path (params.map Ctx.toRequestContext) = .ok req) :
    req.Header.Values (lit "Authorization") =
        [lit "Bearer " ++ (match params with
          | some rc => if rc.APIKey ≠ [] then rc.APIKey else c.apiKey
          | none => c.apiKey)] ∧
      ∀ (rc : Ctx) (req0 : http.Request) (d : GoString),
        (rc.setAuthHeader req0 d).Header.Values (lit "Authorization") =
          [lit "Bearer " ++ (if rc.APIKey ≠ [] then rc.APIKey else d)] := by
  have key : ∀ rc : Ctx, c.newRequest method path (some rc.toRequestContext) = .ok req →
      req.Header.Values (lit "Authorization") =
        [lit "Bearer " ++ (if rc.APIKey ≠ [] then rc.APIKey else c.apiKey)] := by
    intro rc hreq
    obtain ⟨-, -, -, -, hhdr⟩ := newRequest_shape c method path rc req hreq
    have hk : (if rc.APIKey.length > 0 then rc.APIKey else c.apiKey) =
        (if rc.APIKey ≠ [] then rc.APIKey else c.apiKey) := by
      by_cases hA : rc.APIKey = []
      · simp [hA]
      · simp [hA, List.length_pos.mpr hA]
    rw [hhdr, hk]
    generalize (lit "Bearer " ++ if rc.APIKey ≠ [] then rc.APIKey else c.apiKey) = auth
    split_ifs
    · exact (header_values_authorization _ _ _).1
    · exact (header_values_authorization _ _ c.agent).2
  refine ⟨?_, ?_⟩
  · cases params with
    | none => simpa using key {} h
    | some rc => exact key rc h
  · intro rc req0 d
    have h3 : http.CanonicalMIMEHeaderKey (lit "Authorization") = lit "Authorization" := by
      decide
    unfold Ctx.setAuthHeader http.Header.Values http.Header.Set
    simp only
    rw [h3, AList.lookup_insert]
    by_cases hA : rc.APIKey = []
    · simp [hA]
    · simp [hA, List.length_pos.mpr hA]

/-- C5, at a context with a key override. -/
theorem newRequest_authorization_witness :
    clientWithQuery.newRequest (lit "GET") (lit "/user")
        ((some ctxAgent).map Ctx.toRequestContext) = .ok requestAgent ∧
    (requestAgent.Header.Values (lit "Authorization") = [lit "Bearer override"] ∧
     requestAgent.Header.Values (lit "Authorization") =
        [lit "Bearer " ++ (match some ctxAgent with
          | some rc => if rc.APIKey ≠ [] then rc.APIKey else clientWithQuery.apiKey
          | none => clientWithQuery.apiKey)]) :=
  ⟨by decide, by decide,
    (newRequest_authorization clientWithQuery (lit "GET") (lit "/user") (some ctxAgent)
      requestAgent (by decide)).1⟩


/-- C2, at the form `{"key": ["a", "b"]}` and a collector that holds the
agent. -/
theorem getBody_get_head_witness :
    ((({ Form := some formKeyAB } : Ctx).Form = some formKeyAB) ∧
      (lit "GET" = lit "GET" ∨ lit "GET" = lit "HEAD")) ∧
    ((({ Form := some formKeyAB } : Ctx).getBody (lit "GET")
        ((∅ : url.Values).Set (lit "agent") (lit "stremthru"))).1 = (none, []) ∧
      (∀ k, (({ Form := some formKeyAB } : Ctx).getBody (lit "GET")
          ((∅ : url.Values).Set (lit "agent") (lit "stremthru"))).2.index k =
        ((∅ : url.Values).Set (lit "agent") (lit "stremthru")).index k ++ formKeyAB.index k) ∧
      (∀ k, formKeyAB.lookup k = none →
        (({ Form := some formKeyAB } : Ctx).getBody (lit "GET")
          ((∅ : url.Values).Set (lit "agent") (lit "stremthru"))).2.lookup k =
        ((∅ : url.Values).Set (lit "agent") (lit "stremthru")).lookup k)) :=
  ⟨⟨rfl, Or.inl rfl⟩,
    getBody_get_head { Form := some formKeyAB } formKeyAB (lit "GET")
      ((∅ : url.Values).Set (lit "agent") (lit "stremthru")) rfl (Or.inl rfl)⟩

/-- C6: when the request is built, `Request` hands the response and the error
of the one transport call to `processResponseBody`, whatever they are; it
returns a non-nil error exactly when `processResponseBody` does, namely
`UpstreamErrorFromRequest` of that error, the built request and the
transport's response; otherwise it returns the response and a nil error. -/
theorem Request_error_iff {Envelope UpstreamError : Type}
    (pkg : Package Envelope UpstreamError) (c : APIClient) (method path : GoString)
    (params : Option RequestContext) (v : Envelope) (req : http.Request)
    (h : c.newRequest method path params = .ok req) :
    ((c.Request pkg method path params v).1.2.isSome ↔
        (pkg.processResponseBody (c.HTTPClient.Do req).1 (c.HTTPClient.Do req).2 v).1.isSome) ∧
      (∀ e, (pkg.processResponseBody (c.HTTPClient.Do req).1 (c.HTTPClient.Do req).2 v).1 =
          some e →
        c.Request pkg method path params v =
          (((c.HTTPClient.Do req).1,
            some (.upstream (pkg.UpstreamErrorFromRequest e req (c.HTTPClient.Do req).1))),
           (pkg.processResponseBody (c.HTTPClient.Do req).1 (c.HTTPClient.Do req).2 v).2)) ∧
      ((pkg.processResponseBody (c.HTTPClient.Do req).1 (c.HTTPClient.Do req).2 v).1 = none →
        c.Request pkg method path params v =
          (((c.HTTPClient.Do req).1, none),
           (pkg.processResponseBody (c.HTTPClient.Do req).1 (c.HTTPClient.Do req).2 v).2)) := by
  unfold APIClient.Request
  rw [h]
  simp only
  cases hp : (pkg.processResponseBody (c.HTTPClient.Do req).1 (c.HTTPClient.Do req).2 v).1 with
  | none => simp
  | some e => simp

/-- C6, on a network that answers with a server error. -/
theorem Request_error_iff_witness :
    serverErrorClient.newRequest (lit "GET") (lit "/user") none = .ok requestUser ∧
    (((serverErrorClient.Request samplePackage (lit "GET") (lit "/user") none []).1.2.isSome ↔
        (samplePackage.processResponseBody (serverErrorClient.HTTPClient.Do requestUser).1
          (serverErrorClient.HTTPClient.Do requestUser).2 []).1.isSome) ∧
      (∀ e, (samplePackage.processResponseBody (serverErrorClient.HTTPClient.Do requestUser).1
          (serverErrorClient.HTTPClient.Do requestUser).2 []).1 = some e →
        serverErrorClient.Request samplePackage (lit "GET") (lit "/user") none [] =
          (((serverErrorClient.HTTPClient.Do requestUser).1,
            some (.upstream (samplePackage.UpstreamErrorFromRequest e requestUser
              (serverErrorClient.HTTPClient.Do requestUser).1))),
           (samplePackage.processResponseBody (serverErrorClient.HTTPClient.Do requestUser).1
              (serverErrorClient.HTTPClient.Do requestUser).2 []).2)) ∧
      ((samplePackage.processResponseBody (serverErrorClient.HTTPClient.Do requestUser).1
          (serverErrorClient.HTTPClient.Do requestUser).2 []).1 = none →
        serverErrorClient.Request samplePackage (lit "GET") (lit "/user") none [] =
          (((serverErrorClient.HTTPClient.Do requestUser).1, none),
           (samplePackage.processResponseBody (serverErrorClient.HTTPClient.Do requestUser).1
              (serverErrorClient.HTTPClient.Do requestUser).2 []).2))) :=
  ⟨by decide,
    Request_error_iff samplePackage serverErrorClient (lit "GET") (lit "/user") none []
      requestUser (by decide)⟩

/-- C7: when `newRequest` returns the error `e`, `Request` returns a nil
response and the store error with the message `failed to create request`, the
provider name as `StoreName` and `e` as `Cause`; the envelope is as before,
and the result is the same on every network and with every
`processResponseBody` and `UpstreamErrorFromRequest`: neither the transport
nor the response processing takes part. -/
theorem Request_create_error {Envelope UpstreamError : Type}
    (pkg : Package Envelope UpstreamError) (c : APIClient) (method path : GoString)
    (params : Option RequestContext) (v : Envelope) (e : GoError)
    (h : c.newRequest method path params = .error e) :
    c.Request pkg method path params v =
        ((none, some (.store { Msg := lit "failed to create request",
                                StoreName := pkg.StoreNameAlldebrid,
                                Cause := some e })), v) ∧
      ∀ (pkg1 : Package Envelope UpstreamError) (hc1 : http.Client),
        pkg1.StoreNameAlldebrid = pkg.StoreNameAlldebrid →
        APIClient.Request pkg1 { c with HTTPClient := hc1 } method path params v =
          c.Request pkg method path params v := by
  have h1 : ∀ hc1 : http.Client,
      APIClient.newRequest { c with HTTPClient := hc1 } method path params = .error e := by
    intro hc1
    rw [← h]
    rfl
  refine ⟨?_, ?_⟩
  · unfold APIClient.Request
    rw [h]
    rfl
  · intro pkg1 hc1 hs
    unfold APIClient.Request
    rw [h, h1 hc1]
    simp only [core.NewStoreError, hs]

/-- C7, at a method that is no token. -/
theorem Request_create_error_witness :
    defaultClient.newRequest (lit "GE T") (lit "/user") none =
        .error (.errorf (lit "net/http: invalid method %q") [lit "GE T"]) ∧
    (defaultClient.Request samplePackage (lit "GE T") (lit "/user") none [] =
        ((none, some (.store { Msg := lit "failed to create request",
                                StoreName := samplePackage.StoreNameAlldebrid,
                                Cause := some (.errorf (lit "net/http: invalid method %q")
                                  [lit "GE T"]) })), []) ∧
      ∀ (pkg1 : Package GoString SampleUpstreamError) (hc1 : http.Client),
        pkg1.StoreNameAlldebrid = samplePackage.StoreNameAlldebrid →
        APIClient.Request pkg1 { defaultClient with HTTPClient := hc1 } (lit "GE T") (lit "/user")
            none [] =
          defaultClient.Request samplePackage (lit "GE T") (lit "/user") none []) :=
  ⟨by decide,
    Request_create_error samplePackage defaultClient (lit "GE T") (lit "/user") none []
      (.errorf (lit "net/http: invalid method %q") [lit "GE T"]) (by decide)⟩


/-- C8, as the spec states it, fails: on a network that answers with a
response that cannot be decoded, `Request` returns that response together
with a non-nil error. -/
theorem Request_response_and_error :
    (serverErrorClient.Request samplePackage (lit "GET") (lit "/user") none []).1.1 =
        some responseServerError ∧
      (serverErrorClient.Request samplePackage (lit "GET") (lit "/user") none []).1.2.isSome =
        true := by
  decide

/-- C8, amended: when building the request fails, `Request` returns a nil
response and a non-nil error; when the request is built, the response it
returns is the response of the transport call, with a nil error or with a
non-nil one, and the error is non-nil exactly when `processResponseBody`
reports one. -/
theorem Request_response (Envelope UpstreamError : Type)
    (pkg : Package Envelope UpstreamError) (c : APIClient) (method path : GoString)
    (params : Option RequestContext) (v : Envelope) :
    match c.newRequest method path params with
    | .error _ =>
      (c.Request pkg method path params v).1.1 = none ∧
        (c.Request pkg method path params v).1.2.isSome = true
    | .ok req =>
      (c.Request pkg method path params v).1.1 = (c.HTTPClient.Do req).1 ∧
        ((c.Request pkg method path params v).1.2.isSome ↔
          (pkg.processResponseBody (c.HTTPClient.Do req).1 (c.HTTPClient.Do req).2
            v).1.isSome) := by
  unfold APIClient.Request
  cases hn : c.newRequest method path params with
  | error e => simp
  | ok req =>
    simp only
    cases hp : (pkg.processResponseBody (c.HTTPClient.Do req).1 (c.HTTPClient.Do req).2 v).1 with
    | none => simp
    | some e => simp

/-- C9: when the request is built, the transport call fails with the error
`t` and no response, and `processResponseBody` reports `t`, then `Request`
returns a nil response and `UpstreamErrorFromRequest(t, req, nil)`. -/
theorem Request_transport_failure {Envelope UpstreamError : Type}
    (pkg : Package Envelope UpstreamError) (c : APIClient) (method path : GoString)
    (params : Option RequestContext) (v : Envelope) (req : http.Request) (t : GoError)
    (h : c.newRequest method path params = .ok req)
    (hdo : c.HTTPClient.Do req = (none, some t))
    (hp : (pkg.processResponseBody none (some t) v).1 = some t) :
    c.Request pkg method path params v =
      ((none, some (.upstream (pkg.UpstreamErrorFromRequest t req none))),
       (pkg.processResponseBody none (some t) v).2) := by
  unfold APIClient.Request
  rw [h]
  simp only [hdo, hp]

/-- C9, on a network that refuses every connection. -/
theorem Request_transport_failure_witness :
    (defaultClient.newRequest (lit "GET") (lit "/user") none = .ok requestUser ∧
      defaultClient.HTTPClient.Do requestUser =
        (none, some (.errorString (lit "connection refused"))) ∧
      (samplePackage.processResponseBody none (some (.errorString (lit "connection refused")))
        []).1 = some (.errorString (lit "connection refused"))) ∧
    defaultClient.Request samplePackage (lit "GET") (lit "/user") none [] =
      ((none, some (.upstream (samplePackage.UpstreamErrorFromRequest
          (.errorString (lit "connection refused")) requestUser none))),
       (samplePackage.processResponseBody none (some (.errorString (lit "connection refused")))
          []).2) :=
  ⟨⟨by decide, by decide, by decide⟩,
    Request_transport_failure samplePackage defaultClient (lit "GET") (lit "/user") none []
      requestUser (.errorString (lit "connection refused")) (by decide) (by decide) (by decide)⟩

/-- C10: when `NewAPIClient` returns, the base URL of the client is the parse
of `https://api.alldebrid.com` for an empty `conf.BaseURL` (the URL with
scheme `https` and host `api.alldebrid.com`) and the parse of `conf.BaseURL`
otherwise; its agent is `stremthru` for an empty `conf.agent` and `conf.agent`
otherwise, so never empty; its HTTP client is `DefaultHTTPClient` for a nil
`conf.HTTPClient` and `conf.HTTPClient` otherwise; its key is `conf.APIKey`. -/
theorem NewAPIClient_fields (httpDefaultTransport : http.Transport) (conf conf1 : APIClientConfig)
    (c : APIClient) (h : NewAPIClient httpDefaultTransport conf = .ok (c, conf1)) :
    url.Parse (if conf.BaseURL = [] then lit "https://api.alldebrid.com" else conf.BaseURL) =
        .ok c.BaseURL ∧
      (conf.BaseURL = [] →
        c.BaseURL = { Scheme := lit "https", Host := lit "api.alldebrid.com" }) ∧
      c.agent = (if conf.agent = [] then lit "stremthru" else conf.agent) ∧
      c.agent ≠ [] ∧
      c.HTTPClient = (match conf.HTTPClient with
        | none => DefaultHTTPClient httpDefaultTransport
        | some hc => hc) ∧
      c.apiKey = conf.APIKey := by
  have hdef : url.Parse (lit "https://api.alldebrid.com") =
      .ok { Scheme := lit "https", Host := lit "api.alldebrid.com" } := by decide
  unfold NewAPIClient at h
  simp only at h
  split at h
  · cases h
  · rename_i baseUrl hparse
    cases h
    refine ⟨?_, ?_, ?_, ?_, ?_, ?_⟩
    · rw [← hparse]
      congr 1
      split_ifs <;> simp_all
    · intro hempty
      have : url.Parse (lit "https://api.alldebrid.com") = .ok baseUrl := by
        rw [← hparse]
        congr 1
        split_ifs <;> simp_all
      rw [hdef] at this
      cases this
      rfl
    · split_ifs <;> simp_all
    · have hs : lit "stremthru" ≠ [] := by decide
      split_ifs <;> simp_all
    · cases hH : conf.HTTPClient <;> split_ifs <;> simp_all
    · split_ifs <;> simp_all

/-- C10, at a configuration that sets the API key only. -/
theorem NewAPIClient_fields_witness :
    NewAPIClient refusingTransport { APIKey := lit "secret" } =
        .ok (defaultClient,
          { BaseURL := lit "https://api.alldebrid.com", APIKey := lit "secret",
            HTTPClient := some (DefaultHTTPClient refusingTransport),
            agent := lit "stremthru" }) ∧
    (url.Parse (if ({ APIKey := lit "secret" } : APIClientConfig).BaseURL = []
        then lit "https://api.alldebrid.com"
        else ({ APIKey := lit "secret" } : APIClientConfig).BaseURL) =
        .ok defaultClient.BaseURL ∧
      (({ APIKey := lit "secret" } : APIClientConfig).BaseURL = [] →
        defaultClient.BaseURL = { Scheme := lit "https", Host := lit "api.alldebrid.com" }) ∧
      defaultClient.agent = (if ({ APIKey := lit "secret" } : APIClientConfig).agent = []
        then lit "stremthru" else ({ APIKey := lit "secret" } : APIClientConfig).agent) ∧
      defaultClient.agent ≠ [] ∧
      defaultClient.HTTPClient = (match ({ APIKey := lit "secret" } : APIClientConfig).HTTPClient with
        | none => DefaultHTTPClient refusingTransport
        | some hc => hc) ∧
      defaultClient.apiKey = ({ APIKey := lit "secret" } : APIClientConfig).APIKey) :=
  ⟨by rfl,
    NewAPIClient_fields refusingTransport { APIKey := lit "secret" }
      { BaseURL := lit "https://api.alldebrid.com", APIKey := lit "secret",
        HTTPClient := some (DefaultHTTPClient refusingTransport),
        agent := lit "stremthru" } defaultClient (by rfl)⟩


/-- The result of `NewAPIClient` in one expression: the defaults are applied
to the configuration, and the call panics exactly when `url.Parse` fails. -/
theorem NewAPIClient_eq (httpDefaultTransport : http.Transport) (conf : APIClientConfig) :
    NewAPIClient httpDefaultTransport conf =
      match url.Parse
          (if conf.BaseURL = [] then lit "https://api.alldebrid.com" else conf.BaseURL) with
      | .error err => .error err
      | .ok u =>
        .ok ({ BaseURL := u
               HTTPClient := conf.HTTPClient.getD (DefaultHTTPClient httpDefaultTransport)
               apiKey := conf.APIKey
               agent := if conf.agent = [] then lit "stremthru" else conf.agent },
             { BaseURL := if conf.BaseURL = [] then lit "https://api.alldebrid.com"
                 else conf.BaseURL
               APIKey := conf.APIKey
               HTTPClient :=
                 some (conf.HTTPClient.getD (DefaultHTTPClient httpDefaultTransport))
               agent := if conf.agent = [] then lit "stremthru" else conf.agent }) := by
  obtain ⟨b, k, h, a⟩ := conf
  unfold NewAPIClient
  by_cases ha : a = [] <;> by_cases hb : b = [] <;> cases h <;>
    simp only [ha, hb, if_true, if_false, Option.isNone, Option.getD, Bool.false_eq_true]

/-- C11, as the spec states it, fails: for the base URL `foo`, a relative
reference without scheme and host, `NewAPIClient` does not panic; it returns a
client whose base URL is the relative URL with the path `foo`. -/
theorem NewAPIClient_relative_base :
    ∃ c conf1, NewAPIClient refusingTransport { BaseURL := lit "foo" } = .ok (c, conf1) ∧
      c.BaseURL = { Path := lit "foo" } ∧ c.BaseURL.Scheme = [] ∧ c.BaseURL.Host = [] :=
  ⟨{ BaseURL := { Path := lit "foo" }, HTTPClient := DefaultHTTPClient refusingTransport,
     apiKey := [], agent := lit "stremthru" },
   { BaseURL := lit "foo", APIKey := [],
     HTTPClient := some (DefaultHTTPClient refusingTransport), agent := lit "stremthru" },
   by rfl, rfl, rfl, rfl⟩

/-- C11, amended: `NewAPIClient` panics exactly when `url.Parse` rejects the
base URL of the configuration (the default origin for an empty one), with the
error of `url.Parse`, and then returns no client; when `url.Parse` accepts the
text, absolute or not, a client with the parsed URL as base URL is returned.
A text that `url.Parse` rejects, so that the call panics, is `:foo`. -/
theorem NewAPIClient_panics_iff (httpDefaultTransport : http.Transport)
    (conf : APIClientConfig) :
    (match url.Parse
        (if conf.BaseURL = [] then lit "https://api.alldebrid.com" else conf.BaseURL) with
      | .error err => NewAPIClient httpDefaultTransport conf = .error err
      | .ok u => ∃ c conf1, NewAPIClient httpDefaultTransport conf = .ok (c, conf1) ∧
          c.BaseURL = u) ∧
      NewAPIClient httpDefaultTransport { BaseURL := lit ":foo" } =
        .error (.Error (lit "parse") (lit ":foo")
          (.errorString (lit "missing protocol scheme"))) := by
  refine ⟨?_, by rfl⟩
  rw [NewAPIClient_eq]
  cases url.Parse
      (if conf.BaseURL = [] then lit "https://api.alldebrid.com" else conf.BaseURL) with
  | error err => rfl
  | ok u => exact ⟨_, _, rfl, rfl⟩

/-- C12, as the spec states it, fails: called with a configuration that sets
the API key only, `NewAPIClient` returns, and afterwards the base URL, the
HTTP client and the agent of the caller's configuration hold the defaults
instead of the empty values they had. -/
theorem NewAPIClient_changes_config :
    ∃ c conf1, NewAPIClient refusingTransport { APIKey := lit "secret" } = .ok (c, conf1) ∧
      conf1.BaseURL ≠ ({ APIKey := lit "secret" } : APIClientConfig).BaseURL ∧
      conf1.HTTPClient ≠ ({ APIKey := lit "secret" } : APIClientConfig).HTTPClient ∧
      conf1.agent ≠ ({ APIKey := lit "secret" } : APIClientConfig).agent :=
  ⟨defaultClient,
   { BaseURL := lit "https://api.alldebrid.com", APIKey := lit "secret",
     HTTPClient := some (DefaultHTTPClient refusingTransport), agent := lit "stremthru" },
   by rfl, by decide, by simp, by decide⟩

/-- C12, amended: when `NewAPIClient` returns, the API key of the caller's
configuration is as before; its base URL, agent and HTTP client are as before
when they were set, and are overwritten with the default origin, `stremthru`
and `DefaultHTTPClient` when they were empty or nil. -/
theorem NewAPIClient_config_after (httpDefaultTransport : http.Transport)
    (conf conf1 : APIClientConfig) (c : APIClient)
    (h : NewAPIClient httpDefaultTransport conf = .ok (c, conf1)) :
    conf1.APIKey = conf.APIKey ∧
      conf1.BaseURL =
        (if conf.BaseURL = [] then lit "https://api.alldebrid.com" else conf.BaseURL) ∧
      conf1.agent = (if conf.agent = [] then lit "stremthru" else conf.agent) ∧
      conf1.HTTPClient = (match conf.HTTPClient with
        | none => some (DefaultHTTPClient httpDefaultTransport)
        | some hc => some hc) ∧
      (conf.BaseURL ≠ [] → conf.agent ≠ [] → conf.HTTPClient ≠ none → conf1 = conf) := by
  rw [NewAPIClient_eq] at h
  split at h
  · cases h
  · cases h
    refine ⟨rfl, rfl, rfl, ?_, ?_⟩
    · cases conf.HTTPClient <;> rfl
    · intro hb ha hh
      obtain ⟨b, k, hc, a⟩ := conf
      cases hc with
      | none => exact absurd rfl hh
      | some x => simp_all

/-- C12, amended, at a configuration that sets the API key only. -/
theorem NewAPIClient_config_after_witness :
    NewAPIClient refusingTransport confKeyOnly = .ok (defaultClient, confKeyOnlyAfter) ∧
    (confKeyOnlyAfter.APIKey = confKeyOnly.APIKey ∧
      confKeyOnlyAfter.BaseURL =
        (if confKeyOnly.BaseURL = [] then lit "https://api.alldebrid.com"
          else confKeyOnly.BaseURL) ∧
      confKeyOnlyAfter.agent =
        (if confKeyOnly.agent = [] then lit "stremthru" else confKeyOnly.agent) ∧
      confKeyOnlyAfter.HTTPClient = (match confKeyOnly.HTTPClient with
        | none => some (DefaultHTTPClient refusingTransport)
        | some hc => some hc) ∧
      (confKeyOnly.BaseURL ≠ [] → confKeyOnly.agent ≠ [] → confKeyOnly.HTTPClient ≠ none →
        confKeyOnlyAfter = confKeyOnly)) :=
  ⟨by rfl,
    NewAPIClient_config_after refusingTransport confKeyOnly confKeyOnlyAfter defaultClient
      (by rfl)⟩


/-- The headers of a built request under `User-Agent` and `Content-Type`. -/
theorem header_values_userAgent (auth agent ct : GoString) :
    http.Header.Values ((((∅ : http.Header).Set (lit "Authorization") auth).Add
        (lit "User-Agent") agent).Add (lit "Content-Type") ct) (lit "User-Agent") = [agent] ∧
      http.Header.Values (((∅ : http.Header).Set (lit "Authorization") auth).Add
        (lit "User-Agent") agent) (lit "User-Agent") = [agent] ∧
      AList.lookup (lit "Content-Type") (((∅ : http.Header).Set (lit "Authorization") auth).Add
        (lit "User-Agent") agent) = none ∧
      AList.lookup (lit "Content-Type") ((((∅ : http.Header).Set (lit "Authorization") auth).Add
        (lit "User-Agent") agent).Add (lit "Content-Type") ct) = some [ct] := by
  have h1 : http.CanonicalMIMEHeaderKey (lit "Content-Type") = lit "Content-Type" := by decide
  have h2 : http.CanonicalMIMEHeaderKey (lit "User-Agent") = lit "User-Agent" := by decide
  have h3 : http.CanonicalMIMEHeaderKey (lit "Authorization") = lit "Authorization" := by decide
  have n1 : lit "User-Agent" ≠ lit "Content-Type" := by decide
  have n2 : lit "Content-Type" ≠ lit "User-Agent" := by decide
  have n3 : lit "Content-Type" ≠ lit "Authorization" := by decide
  unfold http.Header.Values http.Header.Add http.Header.Values http.Header.Set
  rw [h1, h2, h3]
  refine ⟨?_, ?_, ?_, ?_⟩
  · rw [AList.lookup_insert_ne n1, AList.lookup_insert]
    rfl
  · rw [AList.lookup_insert]
    rfl
  · rw [AList.lookup_insert_ne n2, AList.lookup_insert_ne n3]
    rfl
  · rw [AList.lookup_insert]
    rfl

/-- Body and content type that `getBody` returns: they do not depend on the
collector. -/
theorem getBody_fst (rc : Ctx) (method : GoString) (q : url.Values) :
    (rc.getBody method q).1 =
      (match rc.Form with
        | some form =>
          if method = lit "HEAD" ∨ method = lit "GET" then (none, [])
          else (some form.Encode, lit "application/x-www-form-urlencoded")
        | none => (none, [])) := by
  unfold Ctx.getBody
  cases rc.Form with
  | none => rfl
  | some form =>
    simp only [MethodHead, MethodGet]
    split_ifs <;> rfl

/-- C13: for a nil form, `getBody` returns a nil body and an empty content
type and leaves the collector as it is, for every method; the request that
`newRequest` builds for such a context, and for a nil context, has as query
the base URL's query with `agent` set, no body and no `Content-Type` header. -/
theorem getBody_nil_form (rc : Ctx) (method : GoString) (query : url.Values)
    (hform : rc.Form = none) :
    rc.getBody method query = ((none, []), query) ∧
      ∀ (c : APIClient) (baseURL path : GoString) (params : Option Ctx) (req : http.Request),
        (params = none ∨ params = some rc) →
        url.Parse baseURL = .ok c.BaseURL →
        c.newRequest method path (params.map Ctx.toRequestContext) = .ok req →
          req.URL.RawQuery = (c.BaseURL.Query.Set (lit "agent") c.agent).Encode ∧
          (∀ k, req.URL.Query.index k = (c.BaseURL.Query.Set (lit "agent") c.agent).index k) ∧
          req.Body = none ∧
          AList.lookup (lit "Content-Type") req.Header = none ∧
          req.Header.Values (lit "Content-Type") = [] := by
  have hb : ∀ (rc1 : Ctx), rc1.Form = none → ∀ q, rc1.getBody method q = ((none, []), q) := by
    intro rc1 h1 q
    simp [Ctx.getBody, h1]
  refine ⟨hb rc hform query, ?_⟩
  intro c baseURL path params req hparams hc hreq
  have key : ∀ rc1 : Ctx, rc1.Form = none →
      c.newRequest method path (some rc1.toRequestContext) = .ok req →
        req.URL.RawQuery = (c.BaseURL.Query.Set (lit "agent") c.agent).Encode ∧
        (∀ k, req.URL.Query.index k = (c.BaseURL.Query.Set (lit "agent") c.agent).index k) ∧
        req.Body = none ∧
        AList.lookup (lit "Content-Type") req.Header = none ∧
        req.Header.Values (lit "Content-Type") = [] := by
    intro rc1 h1 hreq1
    have hq := newRequest_RawQuery c baseURL hc method path rc1 req hreq1
    have hi := newRequest_Query_index c baseURL hc method path rc1 req hreq1
    obtain ⟨-, hbody, -, -, hhdr⟩ := newRequest_shape c method path rc1 req hreq1
    rw [hb rc1 h1] at hq hi hbody hhdr
    have hl : ¬ (([] : GoString).length > 0) := by simp
    simp only [hl, if_false] at hhdr
    have hct := (header_values_userAgent
      (lit "Bearer " ++ (if rc1.APIKey.length > 0 then rc1.APIKey else c.apiKey))
      c.agent []).2.2.1
    refine ⟨hq, hi, hbody, ?_, ?_⟩
    · rw [hhdr]; exact hct
    · have h1 : http.CanonicalMIMEHeaderKey (lit "Content-Type") = lit "Content-Type" := by
        decide
      rw [http.Header.Values, h1, hhdr, hct]
      rfl
  rcases hparams with hp | hp
  · subst hp
    exact key {} rfl hreq
  · subst hp
    exact key rc hform hreq

/-- C13, at a nil context on the default client. -/
theorem getBody_nil_form_witness :
    (({} : Ctx).Form = none ∧
      ((none : Option Ctx) = none ∨ (none : Option Ctx) = some {}) ∧
      url.Parse (lit "https://api.alldebrid.com") = .ok defaultClient.BaseURL ∧
      defaultClient.newRequest (lit "GET") (lit "/user")
        ((none : Option Ctx).map Ctx.toRequestContext) = .ok requestUser) ∧
    (requestUser.URL.RawQuery =
        (defaultClient.BaseURL.Query.Set (lit "agent") defaultClient.agent).Encode ∧
      (∀ k, requestUser.URL.Query.index k =
        (defaultClient.BaseURL.Query.Set (lit "agent") defaultClient.agent).index k) ∧
      requestUser.Body = none ∧
      AList.lookup (lit "Content-Type") requestUser.Header = none ∧
      requestUser.Header.Values (lit "Content-Type") = []) :=
  ⟨⟨rfl, Or.inl rfl, by decide, by decide⟩,
    (getBody_nil_form {} (lit "GET") ∅ rfl).2 defaultClient (lit "https://api.alldebrid.com")
      (lit "/user") none requestUser (Or.inl rfl) (by decide) (by decide)⟩


/-- C14: the request that `newRequest` builds for a `Ctx` has the body that
`getBody` returned, and it has a `Content-Type` header exactly when that body
is non-nil; the header then has the single value
`application/x-www-form-urlencoded`. For a form on a method other than GET and
HEAD the body is the encoded form, the empty string for the empty form, and
the header is present. -/
theorem newRequest_contentType (c : APIClient) (method path : GoString) (rc : Ctx)
    (req : http.Request)
    (h : c.newRequest method path (some rc.toRequestContext) = .ok req) :
    (∀ q, req.Body = (rc.getBody method q).1.1) ∧
      ((AList.lookup (lit "Content-Type") req.Header).isSome = true ↔
        req.Body.isSome = true) ∧
      (req.Body.isSome = true →
        req.Header.Values (lit "Content-Type") = [lit "application/x-www-form-urlencoded"]) ∧
      (req.Body.isSome = false → req.Header.Values (lit "Content-Type") = []) ∧
      (∀ form, rc.Form = some form → method ≠ lit "GET" → method ≠ lit "HEAD" →
        req.Body = some form.Encode ∧
        (form = ∅ → req.Body = some []) ∧
        req.Header.Values (lit "Content-Type") =
          [lit "application/x-www-form-urlencoded"]) := by
  obtain ⟨-, hbody, -, -, hhdr⟩ := newRequest_shape c method path rc req h
  have hk : http.CanonicalMIMEHeaderKey (lit "Content-Type") = lit "Content-Type" := by decide
  have hl : (lit "application/x-www-form-urlencoded").length > 0 := by decide
  have hl0 : ¬ (([] : GoString).length > 0) := by simp
  generalize hauth :
    (lit "Bearer " ++ (if rc.APIKey.length > 0 then rc.APIKey else c.apiKey)) = auth at hhdr
  rw [getBody_fst] at hbody hhdr
  have hbody1 : ∀ q, req.Body = (rc.getBody method q).1.1 := by
    intro q
    rw [hbody, getBody_fst]
  refine ⟨hbody1, ?_⟩
  cases hF : rc.Form with
  | none =>
    rw [hF] at hbody hhdr
    simp only [hl0, if_false] at hhdr
    have hct := (header_values_userAgent auth c.agent []).2.2.1
    have hv : req.Header.Values (lit "Content-Type") = [] := by
      rw [http.Header.Values, hk, hhdr, hct]; rfl
    rw [hhdr] at hv
    rw [hbody, hhdr, hct]
    simp [hv]
  | some form =>
    rw [hF] at hbody hhdr
    by_cases hm : method = lit "HEAD" ∨ method = lit "GET"
    · simp only [hm, if_true, hl0, if_false] at hbody hhdr
      have hct := (header_values_userAgent auth c.agent []).2.2.1
      have hv : req.Header.Values (lit "Content-Type") = [] := by
        rw [http.Header.Values, hk, hhdr, hct]; rfl
      rw [hhdr] at hv
      rw [hbody, hhdr, hct]
      refine ⟨by simp, by simp, fun _ => hv, ?_⟩
      intro f _ hg hh
      rcases hm with hm | hm
      · exact absurd hm hh
      · exact absurd hm hg
    · simp only [hm, if_false, hl, if_true] at hbody hhdr
      have hct := (header_values_userAgent auth c.agent
        (lit "application/x-www-form-urlencoded")).2.2.2
      have hv : req.Header.Values (lit "Content-Type") =
          [lit "application/x-www-form-urlencoded"] := by
        rw [http.Header.Values, hk, hhdr, hct]; rfl
      rw [hhdr] at hv
      rw [hbody, hhdr, hct]
      refine ⟨by simp, fun _ => hv, by simp, ?_⟩
      intro f hf _ _
      cases hf
      refine ⟨rfl, ?_, hv⟩
      intro he
      subst he
      rfl

/-- C14, at the empty form on POST. -/
theorem newRequest_contentType_witness :
    defaultClient.newRequest (lit "POST") (lit "/user")
        (some (Ctx.toRequestContext { Form := some ∅ })) = .ok requestEmptyForm ∧
    ((∀ q, requestEmptyForm.Body = (({ Form := some ∅ } : Ctx).getBody (lit "POST") q).1.1) ∧
      ((AList.lookup (lit "Content-Type") requestEmptyForm.Header).isSome = true ↔
        requestEmptyForm.Body.isSome = true) ∧
      (requestEmptyForm.Body.isSome = true →
        requestEmptyForm.Header.Values (lit "Content-Type") =
          [lit "application/x-www-form-urlencoded"]) ∧
      (requestEmptyForm.Body.isSome = false →
        requestEmptyForm.Header.Values (lit "Content-Type") = []) ∧
      (∀ form, ({ Form := some ∅ } : Ctx).Form = some form →
        lit "POST" ≠ lit "GET" → lit "POST" ≠ lit "HEAD" →
        requestEmptyForm.Body = some form.Encode ∧
        (form = ∅ → requestEmptyForm.Body = some []) ∧
        requestEmptyForm.Header.Values (lit "Content-Type") =
          [lit "application/x-www-form-urlencoded"])) :=
  ⟨by decide,
    newRequest_contentType defaultClient (lit "POST") (lit "/user") { Form := some ∅ }
      requestEmptyForm (by decide)⟩

/-- C15: the request that `newRequest` builds, for a `Ctx` or a nil context,
has exactly one `User-Agent` value, the agent of the client; for a client
whose base URL is a parsed URL it is also the value of the `agent` query
parameter. -/
theorem newRequest_userAgent (c : APIClient) (method path : GoString)
    (params : Option Ctx) (req : http.Request)
    (h : c.newRequest method path (params.map Ctx.toRequestContext) = .ok req) :
    req.Header.Values (lit "User-Agent") = [c.agent] ∧
      ∀ baseURL, url.Parse baseURL = .ok c.BaseURL →
        req.URL.Query.Get (lit "agent") = c.agent := by
  have key : ∀ rc : Ctx, c.newRequest method path (some rc.toRequestContext) = .ok req →
      req.Header.Values (lit "User-Agent") = [c.agent] ∧
        ∀ baseURL, url.Parse baseURL = .ok c.BaseURL →
          req.URL.Query.Get (lit "agent") = c.agent := by
    intro rc hreq
    obtain ⟨-, -, -, -, hhdr⟩ := newRequest_shape c method path rc req hreq
    refine ⟨?_, ?_⟩
    · rw [hhdr]
      generalize (lit "Bearer " ++ (if rc.APIKey.length > 0 then rc.APIKey else c.apiKey)) = auth
      split_ifs
      · exact (header_values_userAgent _ _ _).1
      · exact (header_values_userAgent auth c.agent []).2.1
    · intro baseURL hc
      have hi := newRequest_Query_index c baseURL hc method path rc req hreq (lit "agent")
      rw [getBody_collector_index, url.Values.index_Set_self] at hi
      exact (Has_of_index_cons hi).2
  cases params with
  | none => exact key {} h
  | some rc => exact key rc h

/-- C15, at the spec's POST example. -/
theorem newRequest_userAgent_witness :
    defaultClient.newRequest (lit "POST") (lit "/magnet/upload")
        ((some ({ Form := some formMagnets } : Ctx)).map Ctx.toRequestContext) =
      .ok requestMagnets ∧
    (requestMagnets.Header.Values (lit "User-Agent") = [defaultClient.agent] ∧
      ∀ baseURL, url.Parse baseURL = .ok defaultClient.BaseURL →
        requestMagnets.URL.Query.Get (lit "agent") = defaultClient.agent) :=
  ⟨by decide,
    newRequest_userAgent defaultClient (lit "POST") (lit "/magnet/upload")
      (some { Form := some formMagnets }) requestMagnets (by decide)⟩

end alldebrid

/-! ## Lemmas: the order of the keys -/

theorem GoString.le_total (a : GoString) : ∀ b : GoString, a.le b = true ∨ b.le a = true := by
  induction a with
  | nil => intro b; left; cases b <;> rfl
  | cons x s ih =>
    intro b
    cases b with
    | nil => right; rfl
    | cons y t =>
      simp only [GoString.le]
      rcases lt_trichotomy x y with h | h | h
      · left; simp [h]
      · subst h; simpa using ih t
      · right; simp [h]

theorem GoString.le_trans (a : GoString) :
    ∀ b c : GoString, a.le b = true → b.le c = true → a.le c = true := by
  induction a with
  | nil => intro b c _ _; cases c <;> rfl
  | cons x s ih =>
    intro b c hab hbc
    cases b with
    | nil => simp [GoString.le] at hab
    | cons y t =>
      cases c with
      | nil => simp [GoString.le] at hbc
      | cons z u =>
        simp only [GoString.le] at hab hbc ⊢
        rcases lt_trichotomy x y with h | h | h
        · rcases lt_trichotomy y z with h2 | h2 | h2
          · simp [lt_trans h h2]
          · subst h2; simp [h]
          · simp [h2, not_lt_of_gt h2] at hbc
        · subst h
          rcases lt_trichotomy x z with h2 | h2 | h2
          · simp [h2]
          · subst h2
            simp only [lt_self_iff_false, if_false] at hab hbc ⊢
            exact ih t u hab hbc
          · simp [h2, not_lt_of_gt h2] at hbc
        · simp [h, not_lt_of_gt h] at hab

theorem GoString.le_antisymm (a : GoString) :
    ∀ b : GoString, a.le b = true → b.le a = true → a = b := by
  induction a with
  | nil =>
    intro b _ hba
    cases b with
    | nil => rfl
    | cons y t => simp [GoString.le] at hba
  | cons x s ih =>
    intro b hab hba
    cases b with
    | nil => simp [GoString.le] at hab
    | cons y t =>
      simp only [GoString.le] at hab hba
      rcases lt_trichotomy x y with h | h | h
      · simp [h, not_lt_of_gt h] at hba
      · subst h
        simp only [lt_self_iff_false, if_false] at hab hba
        rw [ih t hab hba]
      · simp [h, not_lt_of_gt h] at hab

namespace url.Values

/-- Sorting the keys gives the same list for every enumeration of them. -/
theorem sortedKeys_eq_of_perm {v1 v2 : Values} (h : v1.keys.Perm v2.keys) :
    v1.sortedKeys = v2.sortedKeys := by
  haveI : IsTotal GoString (fun a b => GoString.le a b = true) := ⟨GoString.le_total⟩
  haveI : IsTrans GoString (fun a b => GoString.le a b = true) := ⟨GoString.le_trans⟩
  haveI : IsAntisymm GoString (fun a b => GoString.le a b = true) := ⟨GoString.le_antisymm⟩
  unfold sortedKeys
  apply List.eq_of_perm_of_sorted (r := fun a b => GoString.le a b = true)
  · exact ((List.perm_insertionSort _ _).trans h).trans (List.perm_insertionSort _ _).symm
  · exact List.sorted_insertionSort _ _
  · exact List.sorted_insertionSort _ _

/-- Two maps with the same entry under every key have the same encoding. -/
theorem Encode_congr {v1 v2 : Values} (h : ∀ k, v1.lookup k = v2.lookup k) :
    v1.Encode = v2.Encode := by
  have hkeys : v1.keys.Perm v2.keys := by
    rw [List.perm_ext_iff_of_nodup v1.keys_nodup v2.keys_nodup]
    intro k
    rw [← AList.mem_keys, ← AList.mem_keys, ← AList.lookup_isSome, ← AList.lookup_isSome, h k]
  have hidx : v1.index = v2.index := by
    funext k
    simp only [index, h k]
  unfold Encode
  rw [sortedKeys_eq_of_perm hkeys, hidx]

theorem lookup_Add_self (v : Values) (k x : GoString) :
    (v.Add k x).lookup k = some (v.index k ++ [x]) := by
  simp [Add]

theorem lookup_foldl_Add_cons (k : GoString) (t : List GoString) :
    ∀ (q : Values) (x : GoString),
      (t.foldl (fun query value => query.Add k value) (q.Add k x)).lookup k =
        some (q.index k ++ x :: t) := by
  induction t with
  | nil => intro q x; exact lookup_Add_self q k x
  | cons y t ih =>
    intro q x
    rw [List.foldl_cons, ih, index_Add_self]
    simp

end url.Values

namespace alldebrid

/-- The entry of a key in the collector after the loop of `getBody`: it is
what the collector had, followed by the values that the form has under the
key; a key for which the form has no value keeps its entry. -/
theorem lookup_foldl_entries_eq (k : GoString) :
    ∀ (entries : List (Sigma (fun _ : GoString => List GoString))) (q : url.Values),
      entries.NodupKeys →
      (entries.foldl
          (fun query kv => kv.2.foldl (fun query value => url.Values.Add query kv.1 value) query)
          q).lookup k =
        (match entries.dlookup k with
          | none => q.lookup k
          | some [] => q.lookup k
          | some (x :: t) => some (q.index k ++ x :: t)) := by
  intro entries
  induction entries with
  | nil => intro q _; rfl
  | cons e t ih =>
    intro q hnd
    obtain ⟨k0, vs⟩ := e
    rw [List.nodupKeys_cons] at hnd
    simp only [List.foldl_cons]
    rw [ih _ hnd.2]
    by_cases hk : k = k0
    · subst hk
      have hn : t.dlookup k = none := List.dlookup_eq_none.mpr hnd.1
      rw [hn, List.dlookup_cons_eq]
      cases vs with
      | nil => rfl
      | cons x r => exact url.Values.lookup_foldl_Add_cons k r q x
    · rw [List.dlookup_cons_ne t ⟨k0, vs⟩ hk]
      have h1 := url.Values.lookup_foldl_Add_ne hk vs q
      simp only [url.Values.index, h1]

/-- The collectors that `getBody` leaves for two enumerations of one form
have the same entry under every key. -/
theorem getBody_lookup_of_perm (rc : Ctx) (f1 f2 : url.Values)
    (hperm : f1.entries.Perm f2.entries) (method : GoString) (q : url.Values) (k : GoString) :
    (({ rc with Form := some f1 } : Ctx).getBody method q).2.lookup k =
      (({ rc with Form := some f2 } : Ctx).getBody method q).2.lookup k := by
  unfold Ctx.getBody
  simp only
  split_ifs
  · simp only
    rw [lookup_foldl_entries_eq k f1.entries q f1.nodupKeys,
      lookup_foldl_entries_eq k f2.entries q f2.nodupKeys,
      List.perm_dlookup k f1.nodupKeys f2.nodupKeys hperm]
  · rfl


/-- The result of `newRequest` for a `Ctx` depends on the form only through
the body and content type that `getBody` returns and through the encoding of
the collector it leaves. -/
theorem newRequest_congr (c : APIClient) (method path : GoString) (rc1 rc2 : Ctx)
    (hk : rc1.APIKey = rc2.APIKey) (hcx : rc1.Context = rc2.Context)
    (h1 : ∀ q, (rc1.getBody method q).1 = (rc2.getBody method q).1)
    (h2 : ∀ q, (rc1.getBody method q).2.Encode = (rc2.getBody method q).2.Encode) :
    c.newRequest method path (some rc1.toRequestContext) =
      c.newRequest method path (some rc2.toRequestContext) := by
  have hs : rc1.setAuthHeader = rc2.setAuthHeader := by
    funext req apiKey
    simp only [Ctx.setAuthHeader, hk]
  have hg : rc1.getContext = rc2.getContext := by
    simp only [Ctx.getContext, hcx]
  unfold APIClient.newRequest
  simp only [Ctx.toRequestContext, h1, h2, hs, hg]

/-- C17: the result of `newRequest`, the built request or the error, is the
same for every two enumerations of one form (two lists of the same entries in
different orders), for every client, method, path, key and context; so the
built requests have the same query string and the same body. -/
theorem newRequest_form_order (c : APIClient) (method path : GoString) (rc : Ctx)
    (f1 f2 : url.Values) (hperm : f1.entries.Perm f2.entries) :
    c.newRequest method path (some (Ctx.toRequestContext { rc with Form := some f1 })) =
        c.newRequest method path (some (Ctx.toRequestContext { rc with Form := some f2 })) ∧
      f1.Encode = f2.Encode ∧
      ∀ req1 req2,
        c.newRequest method path (some (Ctx.toRequestContext { rc with Form := some f1 })) =
          .ok req1 →
        c.newRequest method path (some (Ctx.toRequestContext { rc with Form := some f2 })) =
          .ok req2 →
        req1.URL.RawQuery = req2.URL.RawQuery ∧ req1.Body = req2.Body := by
  have henc : f1.Encode = f2.Encode :=
    url.Values.Encode_congr (fun k => AList.perm_lookup hperm)
  have heq : c.newRequest method path
        (some (Ctx.toRequestContext { rc with Form := some f1 })) =
      c.newRequest method path (some (Ctx.toRequestContext { rc with Form := some f2 })) := by
    apply newRequest_congr c method path { rc with Form := some f1 } { rc with Form := some f2 }
      rfl rfl
    · intro q
      rw [getBody_fst, getBody_fst]
      simp only [henc]
    · intro q
      exact url.Values.Encode_congr (getBody_lookup_of_perm rc f1 f2 hperm method q)
  refine ⟨heq, henc, ?_⟩
  intro req1 req2 hr1 hr2
  rw [heq, hr2] at hr1
  cases hr1
  exact ⟨rfl, rfl⟩

/-- C17, at the form `{"a": ["1", "2"], "b": ["3"]}` enumerated in its two
orders, on GET. -/
theorem newRequest_form_order_witness :
    formTwoKeys.entries.Perm formTwoKeysOther.entries ∧
    formTwoKeys.entries ≠ formTwoKeysOther.entries ∧
    (defaultClient.newRequest (lit "GET") (lit "/user")
          (some (Ctx.toRequestContext { Form := some formTwoKeys })) =
        defaultClient.newRequest (lit "GET") (lit "/user")
          (some (Ctx.toRequestContext { Form := some formTwoKeysOther })) ∧
      formTwoKeys.Encode = formTwoKeysOther.Encode ∧
      ∀ req1 req2,
        defaultClient.newRequest (lit "GET") (lit "/user")
          (some (Ctx.toRequestContext { Form := some formTwoKeys })) = .ok req1 →
        defaultClient.newRequest (lit "GET") (lit "/user")
          (some (Ctx.toRequestContext { Form := some formTwoKeysOther })) = .ok req2 →
        req1.URL.RawQuery = req2.URL.RawQuery ∧ req1.Body = req2.Body) :=
  ⟨by decide, by decide,
    newRequest_form_order defaultClient (lit "GET") (lit "/user") {} formTwoKeys
      formTwoKeysOther (by decide)⟩

/-- C16, as the spec states it, fails at the empty method:
`newRequest("", "/user", Ctx{Form: {"key": ["a", "b"]}})` on the default
client builds a request with the method GET whose body is `key=a&key=b`, with
a `Content-Type` header, and whose query string is `agent=stremthru`, without
the parameters of the form. -/
theorem newRequest_empty_method :
    defaultClient.newRequest (lit "") (lit "/user")
        (some (Ctx.toRequestContext { Form := some formKeyAB })) = .ok requestEmptyMethod ∧
      requestEmptyMethod.Method = lit "GET" ∧
      requestEmptyMethod.Body = some (lit "key=a&key=b") ∧
      requestEmptyMethod.Header.Values (lit "Content-Type") =
        [lit "application/x-www-form-urlencoded"] ∧
      requestEmptyMethod.URL.RawQuery = lit "agent=stremthru" ∧
      requestEmptyMethod.URL.Query.index (lit "key") = [] := by
  decide

/-- C16, amended: for a request that `newRequest` builds from a `Ctx` with a
form (for a client whose base URL is a parsed URL), the placement of the form
follows the method argument as it is written. When the argument is exactly
`GET` or `HEAD`, the request has that method and no body, and its query holds
under every key the values of the base query with `agent` set followed by the
values of the form, in their order. For every other argument the body is the
encoded form and the query has nothing of the form; this includes the empty
argument, for which the request has the method `GET`. -/
theorem newRequest_form_placement (c : APIClient) (baseURL method path : GoString)
    (rc : Ctx) (form : url.Values) (req : http.Request)
    (hc : url.Parse baseURL = .ok c.BaseURL) (hform : rc.Form = some form)
    (h : c.newRequest method path (some rc.toRequestContext) = .ok req) :
    ((method = lit "GET" ∨ method = lit "HEAD") →
        req.Method = method ∧ req.Body = none ∧
        ∀ k, req.URL.Query.index k =
          (c.BaseURL.Query.Set (lit "agent") c.agent).index k ++ form.index k) ∧
      (method ≠ lit "GET" → method ≠ lit "HEAD" →
        req.Body = some form.Encode ∧
        (∀ k, req.URL.Query.index k = (c.BaseURL.Query.Set (lit "agent") c.agent).index k) ∧
        (method = [] → req.Method = lit "GET")) := by
  obtain ⟨-, hbody, hmeth, -, -⟩ := newRequest_shape c method path rc req h
  have hi := newRequest_Query_index c baseURL hc method path rc req h
  rw [getBody_fst, hform] at hbody
  simp only [getBody_collector_index, hform] at hi
  refine ⟨?_, ?_⟩
  · intro hm
    have hm2 : method = lit "HEAD" ∨ method = lit "GET" := hm.symm
    have hne : method ≠ [] := by
      rcases hm with hm | hm <;> rw [hm] <;> decide
    simp only [hm2, if_true] at hbody hi
    simp only [hne, if_false] at hmeth
    exact ⟨hmeth, hbody, hi⟩
  · intro hg hh
    have hm2 : ¬ (method = lit "HEAD" ∨ method = lit "GET") := by
      rintro (hm | hm)
      · exact hh hm
      · exact hg hm
    simp only [hm2, if_false, List.append_nil] at hbody hi
    refine ⟨hbody, hi, ?_⟩
    intro he
    simp only [he, if_true] at hmeth
    exact hmeth

/-- C16, amended, at the spec's GET example. -/
theorem newRequest_form_placement_witness :
    (url.Parse (lit "https://api.alldebrid.com") = .ok defaultClient.BaseURL ∧
      ({ Form := some formKeyAB } : Ctx).Form = some formKeyAB ∧
      defaultClient.newRequest (lit "GET") (lit "/user")
        (some (Ctx.toRequestContext { Form := some formKeyAB })) = .ok requestKeyAB) ∧
    (((lit "GET" = lit "GET" ∨ lit "GET" = lit "HEAD") →
        requestKeyAB.Method = lit "GET" ∧ requestKeyAB.Body = none ∧
        ∀ k, requestKeyAB.URL.Query.index k =
          (defaultClient.BaseURL.Query.Set (lit "agent") defaultClient.agent).index k ++
            formKeyAB.index k) ∧
      (lit "GET" ≠ lit "GET" → lit "GET" ≠ lit "HEAD" →
        requestKeyAB.Body = some formKeyAB.Encode ∧
        (∀ k, requestKeyAB.URL.Query.index k =
          (defaultClient.BaseURL.Query.Set (lit "agent") defaultClient.agent).index k) ∧
        (lit "GET" = [] → requestKeyAB.Method = lit "GET"))) :=
  ⟨⟨by decide, rfl, by decide⟩,
    newRequest_form_placement defaultClient (lit "https://api.alldebrid.com") (lit "GET")
      (lit "/user") { Form := some formKeyAB } formKeyAB requestKeyAB (by decide) rfl
      (by decide)⟩

end alldebrid
